import Mathlib

/-!
# Verification of the license-manager lifecycle management commands

A shallow embedding of the three Django management commands of the
`license-manager` repository:

* `send_license_expiration_reminders.py`
* `send_subscription_plan_expiration_emails.py`
* `retire_old_licenses.py`

Datetimes are embedded as `Int` values counting microseconds since an
arbitrary epoch (matching Python `datetime` microsecond resolution);
calendar dates are the floor-division of such a value by the number of
microseconds in a day.  The relational store is embedded as a `List` of
`License` records; Django querysets become `List.filter`, and row updates
become `List.map`.  The external Braze email client and the enterprise
API client are embedded as oracle parameters describing their outcome.
`localized_utcnow()` is embedded as an explicit `now : Int` parameter;
time is held constant within a single command run.
-/

set_option autoImplicit false

namespace LicenseManager

/-! ## Time -/

/-- Microseconds in one day (`timedelta(days=1)` at Python datetime
resolution). -/
def usPerDay : Int := 86400000000

/-- The calendar day holding instant `t`: floor division by `usPerDay`
(Lean's `Int` division is Euclidean division, which is floor division for
a positive divisor).  Embeds Python's `datetime.date()`. -/
def dateOf (t : Int) : Int := t / usPerDay

/-- Midnight (00:00:00.000000) of the calendar day holding instant `t`.
Embeds `t.replace(hour=0, minute=0, second=0, microsecond=0)`. -/
def midnightOf (t : Int) : Int := t - t % usPerDay

/-! ## Data model -/

/-- License status choices.  Modelled from the spec: the `constants`
module (`UNASSIGNED`/`ASSIGNED`/`ACTIVATED`/`REVOKED`) is not under
`src/`; the spec's data-model section lists exactly these four statuses. -/
inductive LicenseStatus where
  | unassigned
  | assigned
  | activated
  | revoked
deriving DecidableEq, Repr

/-- Modelled from the spec: the `CustomerAgreement` model (tenant-level
contract holding `enterprise_customer_uuid`) is declared in the
subscriptions `models` module, which is not under `src/`.  Only the field
the commands traverse is kept.  UUIDs-as-strings are `List Char`. -/
structure CustomerAgreement where
  enterpriseCustomerUuid : List Char
deriving DecidableEq, Repr

/-- Modelled from the spec: the `SubscriptionPlan` model (belongs to a
`CustomerAgreement`, has an expiration date) is declared in the
subscriptions `models` module, which is not under `src/`.  Only the
fields the commands read are kept. -/
structure SubscriptionPlan where
  customerAgreement : CustomerAgreement
  expirationDate : Int
  title : List Char
deriving DecidableEq, Repr

/-- Modelled from the spec: the `License` model is declared in the
subscriptions `models` module, which is not under `src/`.  The spec's
data-model section: a license belongs to a `SubscriptionPlan`, has a
status, holds `user_email`, assignment/revocation timestamps, and
notification-sent timestamps used as idempotency markers.  `uuid` is the
row identity (embedded as `Nat`). -/
structure License where
  uuid : Nat
  status : LicenseStatus
  userEmail : Option (List Char)
  assignedDate : Option Int
  activationDate : Option Int
  revokedDate : Option Int
  expirationReminderSentDate : Option Int
  subscriptionPlanExpirationEmailSentDate : Option Int
  subscriptionPlan : SubscriptionPlan
deriving DecidableEq, Repr

/-! ## License selection queries -/

/-- The row filter of `_get_expiring_licenses`
(`send_license_expiration_reminders.py`, lines 104-137): status
`ACTIVATED`, matching tenant UUID, plan expiration inside the calendar
day `[midnight(now + days), midnight(now + days) + 1 day)`, and no
reminder sent yet. -/
def expiringLicenseFilter (ec : List Char) (daysBeforeExpiration : Int)
    (now : Int) (l : License) : Bool :=
  let targetExpirationDate := now + daysBeforeExpiration * usPerDay
  let expirationWindowStart := midnightOf targetExpirationDate
  let expirationWindowEnd := expirationWindowStart + usPerDay
  decide (l.status = LicenseStatus.activated
    ∧ l.subscriptionPlan.customerAgreement.enterpriseCustomerUuid = ec
    ∧ expirationWindowStart ≤ l.subscriptionPlan.expirationDate
    ∧ l.subscriptionPlan.expirationDate < expirationWindowEnd
    ∧ l.expirationReminderSentDate = none)

/-- `Command._get_expiring_licenses` of
`send_license_expiration_reminders.py` as a query over the license
table. -/
def getExpiringLicenses (ec : List Char) (daysBeforeExpiration : Int)
    (now : Int) (db : List License) : List License :=
  db.filter (expiringLicenseFilter ec daysBeforeExpiration now)

/-- The row filter of `_get_recently_expired_plan_licenses`
(`send_subscription_plan_expiration_emails.py`, lines 109-141): status
`ACTIVATED`, matching tenant UUID, plan expiration in
`[midnight(now) - N days, midnight(now))`, and no expiration email sent
yet. -/
def recentlyExpiredPlanFilter (ec : List Char) (daysSinceExpiration : Int)
    (now : Int) (l : License) : Bool :=
  let expirationWindowEnd := midnightOf now
  let expirationWindowStart := expirationWindowEnd - daysSinceExpiration * usPerDay
  decide (l.status = LicenseStatus.activated
    ∧ l.subscriptionPlan.customerAgreement.enterpriseCustomerUuid = ec
    ∧ expirationWindowStart ≤ l.subscriptionPlan.expirationDate
    ∧ l.subscriptionPlan.expirationDate < expirationWindowEnd
    ∧ l.subscriptionPlanExpirationEmailSentDate = none)

/-- `Command._get_recently_expired_plan_licenses` of
`send_subscription_plan_expiration_emails.py` as a query over the
license table. -/
def getRecentlyExpiredPlanLicenses (ec : List Char) (daysSinceExpiration : Int)
    (now : Int) (db : List License) : List License :=
  db.filter (recentlyExpiredPlanFilter ec daysSinceExpiration now)

/-! ## `retire_old_licenses.py` -/

/-- Modelled from the spec: `DAYS_TO_RETIRE` lives in the `constants`
module, which is not under `src/`; the command's help text and the spec
both fix it at 90 days. -/
def daysToRetire : Int := 90

/-- Modelled from the spec: `License.clear_pii` is defined in the
subscriptions `models` module, which is not under `src/`.  Per the spec's
data model, the personally-identifiable information a license holds is
its `user_email`; scrubbing PII clears it. -/
def clearPii (l : License) : License := { l with userEmail := none }

/-- Modelled from the spec: `License.reset_to_unassigned` is defined in
the subscriptions `models` module, which is not under `src/`.  Per the
spec, it returns the license to the plan's pool of unassigned licenses,
scrubbing its assignment data and PII: status becomes `UNASSIGNED` and
the email and the assignment/activation/revocation timestamps are
cleared. -/
def resetToUnassigned (l : License) : License :=
  { l with
    status := LicenseStatus.unassigned
    userEmail := none
    assignedDate := none
    activationDate := none
    revokedDate := none }

/-- Row filter of the first queryset of `retire_old_licenses.handle`
(lines 29-32): `user_email__isnull=False` and plan expiration strictly
before `ready_for_retirement_date` (a date, hence compared against its
midnight). -/
def expiredRetirementFilter (readyDay : Int) (l : License) : Bool :=
  decide (l.userEmail ≠ none
    ∧ l.subscriptionPlan.expirationDate < readyDay * usPerDay)

/-- Row filter of the second queryset of `retire_old_licenses.handle`
(lines 45-50): status `REVOKED`, non-null email, non-null revoked date
whose calendar day is strictly before `ready_for_retirement_date`. -/
def revokedRetirementFilter (readyDay : Int) (l : License) : Bool :=
  match l.revokedDate with
  | none => false
  | some d =>
    decide (l.status = LicenseStatus.revoked
      ∧ l.userEmail ≠ none
      ∧ dateOf d < readyDay)

/-- Row filter of the third queryset of `retire_old_licenses.handle`
(lines 62-66): status `ASSIGNED`, non-null assigned date whose calendar
day is strictly before `ready_for_retirement_date`. -/
def assignedRetirementFilter (readyDay : Int) (l : License) : Bool :=
  match l.assignedDate with
  | none => false
  | some d =>
    decide (l.status = LicenseStatus.assigned ∧ dateOf d < readyDay)

/-- Per-row effect of the expired-plan loop (lines 34-40): clear PII,
mark revoked, stamp `revoked_date` with the current time. -/
def retireExpiredStep (readyDay now : Int) (l : License) : License :=
  if expiredRetirementFilter readyDay l then
    { clearPii l with
      status := LicenseStatus.revoked
      revokedDate := some now }
  else l

/-- Per-row effect of the revoked-license loop (lines 53-57): clear PII
only. -/
def retireRevokedStep (readyDay : Int) (l : License) : License :=
  if revokedRetirementFilter readyDay l then clearPii l else l

/-- Per-row effect of the assigned-license loop (lines 69-73): reset to
unassigned. -/
def retireAssignedStep (readyDay : Int) (l : License) : License :=
  if assignedRetirementFilter readyDay l then resetToUnassigned l else l

/-- `retire_old_licenses.Command.handle`: the three querysets are
evaluated and their loops run strictly in sequence (each Django queryset
executes its SQL when its loop starts, after the previous loop's saves),
so the second filter sees the first loop's updates, and the third sees
both. -/
def retireHandle (now : Int) (db : List License) : List License :=
  let readyDay := dateOf now - daysToRetire
  let step1 := db.map (retireExpiredStep readyDay now)
  let step2 := step1.map (retireRevokedStep readyDay)
  step2.map (retireAssignedStep readyDay)

/-- The composed per-row effect of a full `retire_old_licenses` run. -/
def retireOne (now : Int) (l : License) : License :=
  retireAssignedStep (dateOf now - daysToRetire)
    (retireRevokedStep (dateOf now - daysToRetire)
      (retireExpiredStep (dateOf now - daysToRetire) now l))

/-- A concrete run time for the retirement examples: 91 days past the
epoch, so `ready_for_retirement_date` is day 1. -/
def retireNow : Int := 91 * usPerDay

/-- An unassigned license with an email on a plan expired at the epoch. -/
def c6Lic : License :=
  ⟨1, LicenseStatus.unassigned, some ['u'], none, none, none, none, none,
    ⟨⟨['e']⟩, 0, ['p']⟩⟩

/-- An assigned license, assigned at the epoch, whose plan also expired
at the epoch. -/
def c7Lic : License :=
  ⟨2, LicenseStatus.assigned, some ['u'], some 0, none, none, none, none,
    ⟨⟨['e']⟩, 0, ['p']⟩⟩

/-- An assigned license, assigned at the epoch, whose plan has not yet
expired. -/
def c7wLic : License :=
  ⟨4, LicenseStatus.assigned, some ['u'], some 0, none, none, none, none,
    ⟨⟨['e']⟩, 200 * usPerDay, ['p']⟩⟩

/-- A revoked license, revoked at the epoch, whose plan also expired at
the epoch. -/
def c8Lic : License :=
  ⟨3, LicenseStatus.revoked, some ['u'], none, none, some 0, none, none,
    ⟨⟨['e']⟩, 0, ['p']⟩⟩

/-- A revoked license, revoked at the epoch, whose plan has not yet
expired. -/
def c8wLic : License :=
  ⟨5, LicenseStatus.revoked, some ['u'], none, none, some 0, none, none,
    ⟨⟨['e']⟩, 200 * usPerDay, ['p']⟩⟩

/-! ## UUID string parsing (`_parse_enterprise_customer_uuids`) -/

/-- The ASCII whitespace characters matched by the regex class `\s`. -/
def isWS (c : Char) : Bool :=
  decide (c = ' ' ∨ c = '\t' ∨ c = '\n' ∨ c = '\r' ∨ c = '\x0b' ∨ c = '\x0c')

/-- A character matched by the separator pattern `[,\s]`. -/
def isSep (c : Char) : Bool := decide (c = ',') || isWS c

/-- Python `str.strip()`: drop leading and trailing whitespace. -/
def pyStrip (l : List Char) : List Char :=
  ((l.dropWhile isWS).reverse.dropWhile isWS).reverse

/-- `re.split(r'[,\s]+', s)`: the pieces of `s` between maximal runs of
separator characters, including an empty piece at either end when `s`
starts or ends with a separator run. -/
def reSplitSeps : List Char → List (List Char)
  | [] => [[]]
  | c :: rest =>
    if isSep c then
      match rest with
      | [] => [[], []]
      | c2 :: _ => if isSep c2 then reSplitSeps rest else [] :: reSplitSeps rest
    else
      match reSplitSeps rest with
      | [] => [[c]]
      | p :: ps => (c :: p) :: ps

/-- The claim's characterization of the token list: the maximal runs of
non-separator characters of the input, in order. -/
def tokenize : List Char → List (List Char)
  | [] => []
  | c :: rest =>
    if isSep c then tokenize rest
    else
      match rest with
      | [] => [[c]]
      | c2 :: _ =>
        if isSep c2 then [c] :: tokenize rest
        else
          match tokenize rest with
          | [] => [[c]]
          | t :: ts => (c :: t) :: ts

/-- The token computation of `_parse_enterprise_customer_uuids`
(`send_license_expiration_reminders.py` lines 91-94, identical in
`send_subscription_plan_expiration_emails.py`): strip the input, split
on runs of commas/whitespace, strip each piece and keep the non-empty
ones. -/
def parseTokens (s : List Char) : List (List Char) :=
  ((reSplitSeps (pyStrip s)).map pyStrip).filter (fun t => !t.isEmpty)

/-- `_parse_enterprise_customer_uuids` (lines 81-102): every token is
validated with `uuid.UUID` — embedded as an abstract syntactic-validity
predicate `valid`, an external stdlib collaborator — raising `ValueError`
(the `Except.error` branch) when some token fails, and returning the
token list otherwise. -/
def parseEnterpriseCustomerUuids (valid : List Char → Bool) (s : List Char) :
    Except Unit (List (List Char)) :=
  let uuids := parseTokens s
  if uuids.all valid then Except.ok uuids else Except.error ()

/-! ## Email-sending command machinery

The two email commands differ only in their selection query, the
idempotency-marker field they stamp, and message text; the shared control
flow is embedded once, parameterized by the selection function `sel` and
the marker setter `setS`. -/

/-- Outcome of attempting to send one license's email
(`_send_expiration_reminder_email` resp.
`_send_subscription_expiration_email`): success, a raised
`BrazeClientError`, some other raised exception, or a raised
`ValueError` (unconfigured Braze campaign setting).  The Braze client is
an external collaborator, embedded as this per-license oracle. -/
inductive SendOutcome where
  | success
  | brazeError
  | otherError
  | valueError
deriving DecidableEq, Repr

/-- Result of the per-license loop of `_process_enterprise_customer`:
the updated table, the success/failure counters, the uuids of licenses
whose email went out, and whether the loop aborted on a `ValueError`. -/
structure ProcOut where
  db : List License
  succ : Nat
  fail : Nat
  sent : List Nat
  aborted : Bool
deriving DecidableEq, Repr

/-- The per-license loop of `_process_enterprise_customer` (reminder
command lines 257-275, plan-expiration command lines 262-280).  On
success the email goes out and the row is stamped with the current time
via `setS` and saved; `BrazeClientError` and any other exception count a
failure and leave the row untouched; a `ValueError` is re-raised,
abandoning the loop (earlier iterations' sends and saves persist, the
counters are lost with the exception). -/
def processLicenses (setS : Int → License → License)
    (outcome : License → SendOutcome) (now : Int) :
    List License → List License → ProcOut
  | db, [] => ⟨db, 0, 0, [], false⟩
  | db, l :: rest =>
    match outcome l with
    | SendOutcome.valueError => ⟨db, 0, 0, [], true⟩
    | SendOutcome.success =>
      let db' := db.map fun x => if x.uuid = l.uuid then setS now x else x
      let r := processLicenses setS outcome now db' rest
      ⟨r.db, r.succ + 1, r.fail, l.uuid :: r.sent, r.aborted⟩
    | SendOutcome.brazeError =>
      let r := processLicenses setS outcome now db rest
      ⟨r.db, r.succ, r.fail + 1, r.sent, r.aborted⟩
    | SendOutcome.otherError =>
      let r := processLicenses setS outcome now db rest
      ⟨r.db, r.succ, r.fail + 1, r.sent, r.aborted⟩

/-- How `_process_enterprise_customer` terminates: normally, or by
raising a `ValueError`, or by raising some other exception (a failed
enterprise-API fetch). -/
inductive CustOutcome where
  | ok
  | raisedValueError
  | raisedOther
deriving DecidableEq, Repr

/-- Result of `_process_enterprise_customer` for one customer. -/
structure CustOut where
  db : List License
  succ : Nat
  fail : Nat
  sent : List Nat
  apiCalled : Bool
  outcome : CustOutcome
deriving DecidableEq, Repr

/-- `_process_enterprise_customer` (reminder command lines 204-282,
plan-expiration command lines 209-287).  An empty queryset and the
dry-run branch both return zero counts without touching rows or calling
the enterprise API; a failed enterprise-API fetch re-raises a generic
exception; otherwise the per-license loop runs and a `ValueError` from
it propagates. -/
def processCustomer (sel : List License → List License)
    (setS : Int → License → License) (outcome : License → SendOutcome)
    (apiOk : Bool) (dryRun : Bool) (now : Int) (db : List License) : CustOut :=
  let licenses := sel db
  if licenses.isEmpty then ⟨db, 0, 0, [], false, CustOutcome.ok⟩
  else if dryRun then ⟨db, 0, 0, [], false, CustOutcome.ok⟩
  else if !apiOk then ⟨db, 0, 0, [], true, CustOutcome.raisedOther⟩
  else
    let r := processLicenses setS outcome now db licenses
    if r.aborted then ⟨r.db, 0, 0, r.sent, true, CustOutcome.raisedValueError⟩
    else ⟨r.db, r.succ, r.fail, r.sent, true, CustOutcome.ok⟩

/-- Accumulated state of the per-customer loop of `handle`. -/
structure LoopOut where
  db : List License
  totalSucc : Nat
  totalFail : Nat
  entFail : Nat
  sent : List Nat
  processed : List (List Char)
  perCustomer : List (Nat × Nat)
  anyApiCalled : Bool
  abortedVE : Bool
deriving DecidableEq, Repr

/-- The per-customer loop of `handle` (reminder command lines 308-325,
plan-expiration command lines 314-331): each customer is processed in
turn against the current table; a `ValueError` re-raises immediately;
any other exception counts one customer-level failure (`entFail`; the
reminder command adds it straight into `total_failure_count`, the
plan-expiration command keeps `enterprise_level_failures` — both raise
at the end iff the sum is positive) and processing continues. -/
def handleLoop (sel : List Char → List License → List License)
    (setS : Int → License → License)
    (outcome : List Char → License → SendOutcome)
    (apiOk : List Char → Bool) (dryRun : Bool) (now : Int) :
    List License → List (List Char) → LoopOut
  | db, [] => ⟨db, 0, 0, 0, [], [], [], false, false⟩
  | db, ec :: rest =>
    let c := processCustomer (sel ec) setS (outcome ec) (apiOk ec) dryRun now db
    match c.outcome with
    | CustOutcome.raisedValueError =>
      ⟨c.db, 0, 0, 0, c.sent, [ec], [], c.apiCalled, true⟩
    | CustOutcome.raisedOther =>
      let r := handleLoop sel setS outcome apiOk dryRun now c.db rest
      ⟨r.db, r.totalSucc, r.totalFail, r.entFail + 1, c.sent ++ r.sent,
        ec :: r.processed, r.perCustomer, c.apiCalled || r.anyApiCalled,
        r.abortedVE⟩
    | CustOutcome.ok =>
      let r := handleLoop sel setS outcome apiOk dryRun now c.db rest
      ⟨r.db, c.succ + r.totalSucc, c.fail + r.totalFail, r.entFail,
        c.sent ++ r.sent, ec :: r.processed,
        (c.succ, c.fail) :: r.perCustomer,
        c.apiCalled || r.anyApiCalled, r.abortedVE⟩

/-- How `handle` terminates: normally, with a `ValueError`, or with the
end-of-run failure `Exception`. -/
inductive HandleOutcome where
  | ok
  | raisedValueError
  | raisedFailureExc
deriving DecidableEq, Repr

/-- Result of a full `handle` run. -/
structure HandleOut where
  db : List License
  totalSucc : Nat
  totalFail : Nat
  entFail : Nat
  sent : List Nat
  processed : List (List Char)
  perCustomer : List (Nat × Nat)
  anyApiCalled : Bool
  outcome : HandleOutcome
deriving DecidableEq, Repr

/-- `Command.handle` (reminder command lines 284-336, plan-expiration
command lines 289-343), generic in the selection query and marker
setter.  A parse failure or an empty UUID list raises `ValueError`
before any customer is processed; then the customer loop runs; finally
the command raises iff the accumulated per-license failures plus
customer-level failures are positive. -/
def handleCommand (valid : List Char → Bool)
    (sel : List Char → List License → List License)
    (setS : Int → License → License)
    (outcome : List Char → License → SendOutcome)
    (apiOk : List Char → Bool) (s : List Char) (dryRun : Bool) (now : Int)
    (db : List License) : HandleOut :=
  match parseEnterpriseCustomerUuids valid s with
  | Except.error _ =>
    ⟨db, 0, 0, 0, [], [], [], false, HandleOutcome.raisedValueError⟩
  | Except.ok [] =>
    ⟨db, 0, 0, 0, [], [], [], false, HandleOutcome.raisedValueError⟩
  | Except.ok uuids =>
    let r := handleLoop sel setS outcome apiOk dryRun now db uuids
    if r.abortedVE then
      ⟨r.db, 0, 0, 0, r.sent, r.processed, r.perCustomer, r.anyApiCalled,
        HandleOutcome.raisedValueError⟩
    else if 0 < r.totalFail + r.entFail then
      ⟨r.db, r.totalSucc, r.totalFail, r.entFail, r.sent, r.processed,
        r.perCustomer, r.anyApiCalled, HandleOutcome.raisedFailureExc⟩
    else
      ⟨r.db, r.totalSucc, r.totalFail, r.entFail, r.sent, r.processed,
        r.perCustomer, r.anyApiCalled, HandleOutcome.ok⟩

/-- Marks a license as having received its expiration reminder
(`license_obj.expiration_reminder_sent_date = localized_utcnow()`,
reminder command line 261). -/
def setReminderSent (n : Int) (l : License) : License :=
  { l with expirationReminderSentDate := some n }

/-- Marks a license as having received its plan-expiration email
(plan-expiration command line 266). -/
def setPlanExpirationSent (n : Int) (l : License) : License :=
  { l with subscriptionPlanExpirationEmailSentDate := some n }

/-- `send_license_expiration_reminders.Command.handle`. -/
def remindersHandle (valid : List Char → Bool)
    (outcome : List Char → License → SendOutcome) (apiOk : List Char → Bool)
    (s : List Char) (daysBeforeExpiration : Int) (dryRun : Bool) (now : Int)
    (db : List License) : HandleOut :=
  handleCommand valid (fun ec => getExpiringLicenses ec daysBeforeExpiration now)
    setReminderSent outcome apiOk s dryRun now db

/-- `send_subscription_plan_expiration_emails.Command.handle`. -/
def planExpirationHandle (valid : List Char → Bool)
    (outcome : List Char → License → SendOutcome) (apiOk : List Char → Bool)
    (s : List Char) (daysSinceExpiration : Int) (dryRun : Bool) (now : Int)
    (db : List License) : HandleOut :=
  handleCommand valid
    (fun ec => getRecentlyExpiredPlanLicenses ec daysSinceExpiration now)
    setPlanExpirationSent outcome apiOk s dryRun now db

/-- The varying inputs of one scheduled run of an email command. -/
structure RunEnv where
  valid : List Char → Bool
  uuidString : List Char
  days : Int
  dryRun : Bool
  now : Int
  outcome : List Char → License → SendOutcome
  apiOk : List Char → Bool

/-- A sequence of command runs against an evolving license table,
collecting every email sent. -/
def runSequence (runOne : RunEnv → List License → HandleOut) :
    List RunEnv → List License → List License × List Nat
  | [], db => (db, [])
  | e :: es, db =>
    let r := runOne e db
    let rest := runSequence runOne es r.db
    (rest.1, r.sent ++ rest.2)

/-- One scheduled run of the reminder command. -/
def remindersRun (e : RunEnv) (db : List License) : HandleOut :=
  remindersHandle e.valid e.outcome e.apiOk e.uuidString e.days e.dryRun e.now db

/-- One scheduled run of the plan-expiration command. -/
def planExpirationRun (e : RunEnv) (db : List License) : HandleOut :=
  planExpirationHandle e.valid e.outcome e.apiOk e.uuidString e.days e.dryRun
    e.now db

/-- The table marks uuid `u` as already notified under marker reader
`getS`: every row carrying that uuid has a non-null sent date. -/
def markedOn (getS : License → Option Int) (db : List License) (u : Nat) : Prop :=
  ∀ l ∈ db, l.uuid = u → (getS l).isSome = true

/-! # Theorems -/

theorem usPerDay_pos : (0 : Int) < usPerDay := by decide

/-- An instant lies in the half-open day window starting at the midnight
of instant `t` exactly when both instants share a calendar day. -/
theorem mem_day_window_iff (t e : Int) :
    (midnightOf t ≤ e ∧ e < midnightOf t + usPerDay) ↔ dateOf e = dateOf t := by
  unfold midnightOf dateOf usPerDay
  omega

/-- Shifting an instant by a whole number of days shifts its calendar day
by the same amount. -/
theorem dateOf_add_days (t d : Int) : dateOf (t + d * usPerDay) = dateOf t + d := by
  unfold dateOf usPerDay
  omega

/-- **C1.** `_get_expiring_licenses` returns exactly the licenses that
are `ACTIVATED`, belong to a plan whose customer agreement has the given
enterprise customer UUID, whose plan expiration date falls on the
calendar day `daysBeforeExpiration` days after `now` (at or after that
day's 00:00:00 UTC and strictly before the next day's 00:00:00 UTC,
which is exactly `dateOf expiration = dateOf now + daysBeforeExpiration`),
and whose `expiration_reminder_sent_date` is null. -/
theorem c1_expiring_license_selection (ec : List Char)
    (daysBeforeExpiration now : Int) (db : List License) (l : License) :
    l ∈ getExpiringLicenses ec daysBeforeExpiration now db ↔
      l ∈ db
      ∧ l.status = LicenseStatus.activated
      ∧ l.subscriptionPlan.customerAgreement.enterpriseCustomerUuid = ec
      ∧ dateOf l.subscriptionPlan.expirationDate = dateOf now + daysBeforeExpiration
      ∧ l.expirationReminderSentDate = none := by
  unfold getExpiringLicenses expiringLicenseFilter
  rw [List.mem_filter]
  simp only [decide_eq_true_eq]
  constructor
  · rintro ⟨hmem, hstat, hec, hlo, hhi, hnone⟩
    refine ⟨hmem, hstat, hec, ?_, hnone⟩
    have := (mem_day_window_iff (now + daysBeforeExpiration * usPerDay)
      l.subscriptionPlan.expirationDate).mp ⟨hlo, hhi⟩
    rw [this, dateOf_add_days]
  · rintro ⟨hmem, hstat, hec, hday, hnone⟩
    have : dateOf l.subscriptionPlan.expirationDate
        = dateOf (now + daysBeforeExpiration * usPerDay) := by
      rw [dateOf_add_days]; exact hday
    have hw := (mem_day_window_iff (now + daysBeforeExpiration * usPerDay)
      l.subscriptionPlan.expirationDate).mpr this
    exact ⟨hmem, hstat, hec, hw.1, hw.2, hnone⟩

/-- Lying in `[midnight(now) - N days, midnight(now))` is the same as the
calendar day lying in `[dateOf now - N, dateOf now)`: the last `N` full
calendar days, excluding today. -/
theorem mem_lookback_window_iff (now e n : Int) :
    (midnightOf now - n * usPerDay ≤ e ∧ e < midnightOf now) ↔
      (dateOf now - n ≤ dateOf e ∧ dateOf e < dateOf now) := by
  unfold midnightOf dateOf usPerDay
  omega

/-- **C5.** `_get_recently_expired_plan_licenses` returns exactly the
`ACTIVATED` licenses of the given customer whose plan expiration date is
at or after today's UTC midnight minus `daysSinceExpiration` days and
strictly before today's UTC midnight — equivalently, whose expiration
falls in one of the last `daysSinceExpiration` full calendar days,
excluding today — and whose `subscription_plan_expiration_email_sent_date`
is null. -/
theorem c5_recently_expired_selection (ec : List Char)
    (daysSinceExpiration now : Int) (db : List License) (l : License) :
    l ∈ getRecentlyExpiredPlanLicenses ec daysSinceExpiration now db ↔
      l ∈ db
      ∧ l.status = LicenseStatus.activated
      ∧ l.subscriptionPlan.customerAgreement.enterpriseCustomerUuid = ec
      ∧ dateOf now - daysSinceExpiration ≤ dateOf l.subscriptionPlan.expirationDate
      ∧ dateOf l.subscriptionPlan.expirationDate < dateOf now
      ∧ l.subscriptionPlanExpirationEmailSentDate = none := by
  unfold getRecentlyExpiredPlanLicenses recentlyExpiredPlanFilter
  rw [List.mem_filter]
  simp only [decide_eq_true_eq]
  constructor
  · rintro ⟨hmem, hstat, hec, hlo, hhi, hnone⟩
    have hw := (mem_lookback_window_iff now l.subscriptionPlan.expirationDate
      daysSinceExpiration).mp ⟨hlo, hhi⟩
    exact ⟨hmem, hstat, hec, hw.1, hw.2, hnone⟩
  · rintro ⟨hmem, hstat, hec, hlo, hhi, hnone⟩
    have hw := (mem_lookback_window_iff now l.subscriptionPlan.expirationDate
      daysSinceExpiration).mpr ⟨hlo, hhi⟩
    exact ⟨hmem, hstat, hec, hw.1, hw.2, hnone⟩

/-! ## Retirement theorems -/

theorem retireHandle_eq_map (now : Int) (db : List License) :
    retireHandle now db = db.map (retireOne now) := by
  unfold retireHandle retireOne
  simp [List.map_map]

/-- **C6.** Any license with a non-null `user_email` whose plan expired
more than 90 days before today — whatever its status — ends a
`retire_old_licenses` run with its PII cleared, status `REVOKED`, and
`revoked_date` set to the current time. -/
theorem c6_expired_plan_licenses_retired (now : Int) (l : License)
    (hmail : l.userEmail ≠ none)
    (hexp : l.subscriptionPlan.expirationDate < (dateOf now - daysToRetire) * usPerDay) :
    retireOne now l
      = { l with
          userEmail := none
          status := LicenseStatus.revoked
          revokedDate := some now }
    ∧ ∀ db : List License, l ∈ db →
        { l with
          userEmail := none
          status := LicenseStatus.revoked
          revokedDate := some now } ∈ retireHandle now db := by
  have h1 : retireExpiredStep (dateOf now - daysToRetire) now l
      = { l with
          userEmail := none
          status := LicenseStatus.revoked
          revokedDate := some now } := by
    unfold retireExpiredStep expiredRetirementFilter clearPii
    rw [if_pos (by exact decide_eq_true ⟨hmail, hexp⟩)]
  have hone : retireOne now l
      = { l with
          userEmail := none
          status := LicenseStatus.revoked
          revokedDate := some now } := by
    unfold retireOne
    rw [h1]
    unfold retireRevokedStep revokedRetirementFilter
    simp only [if_neg, decide_eq_true_eq, ne_eq, not_true_eq_false, and_false,
      false_and, decide_False, Bool.false_eq_true, if_false]
    unfold retireAssignedStep assignedRetirementFilter
    cases h : l.assignedDate with
    | none => simp [h]
    | some d => simp [h]
  refine ⟨hone, fun db hdb => ?_⟩
  rw [retireHandle_eq_map]
  rw [← hone]
  exact List.mem_map_of_mem _ hdb

theorem c6_expired_plan_licenses_retired_witness :
    c6Lic.userEmail ≠ none
    ∧ c6Lic.subscriptionPlan.expirationDate
        < (dateOf retireNow - daysToRetire) * usPerDay
    ∧ retireOne retireNow c6Lic
        = { c6Lic with
            userEmail := none
            status := LicenseStatus.revoked
            revokedDate := some retireNow } :=
  ⟨by decide, by decide,
    (c6_expired_plan_licenses_retired retireNow c6Lic (by decide) (by decide)).1⟩

/-- **C7 counterexample.** A license with status `ASSIGNED` and an
assigned date more than 90 days old is *not* reset to unassigned when it
is also caught by the expired-plan query: the expired-plan loop runs
first, revokes it, and the assigned-license query (which runs afterwards
and filters on `status=ASSIGNED`) no longer sees it. -/
theorem c7_counterexample :
    c7Lic.status = LicenseStatus.assigned
    ∧ c7Lic.assignedDate = some 0
    ∧ dateOf 0 < dateOf retireNow - daysToRetire
    ∧ (retireHandle retireNow [c7Lic]).map License.status
        = [LicenseStatus.revoked] := by decide

/-- **C7 (amended).** Every license with status `ASSIGNED` and a
non-null `assigned_date` whose calendar day is more than 90 days before
today, *and which is not also selected by the expired-plan retirement
query* (i.e. it does not have both a non-null `user_email` and a plan
that expired more than 90 days ago), is reset to unassigned: its
assignment data and PII are scrubbed and its status returns to
`UNASSIGNED`. -/
theorem c7_assigned_licenses_reset (now : Int) (l : License) (d : Int)
    (hstat : l.status = LicenseStatus.assigned)
    (hd : l.assignedDate = some d)
    (hold : dateOf d < dateOf now - daysToRetire)
    (hnotexpired : expiredRetirementFilter (dateOf now - daysToRetire) l = false) :
    retireOne now l = resetToUnassigned l
    ∧ ∀ db : List License, l ∈ db → resetToUnassigned l ∈ retireHandle now db := by
  have h1 : retireExpiredStep (dateOf now - daysToRetire) now l = l := by
    unfold retireExpiredStep
    rw [hnotexpired]
    rfl
  have h2 : retireRevokedStep (dateOf now - daysToRetire) l = l := by
    unfold retireRevokedStep revokedRetirementFilter
    cases hr : l.revokedDate with
    | none => rfl
    | some r => simp [hstat]
  have h3 : retireAssignedStep (dateOf now - daysToRetire) l = resetToUnassigned l := by
    unfold retireAssignedStep assignedRetirementFilter
    rw [hd]
    simp [hstat, hold]
  have hone : retireOne now l = resetToUnassigned l := by
    unfold retireOne
    rw [h1, h2, h3]
  refine ⟨hone, fun db hdb => ?_⟩
  rw [retireHandle_eq_map, ← hone]
  exact List.mem_map_of_mem _ hdb

theorem c7_assigned_licenses_reset_witness :
    c7wLic.status = LicenseStatus.assigned
    ∧ c7wLic.assignedDate = some 0
    ∧ dateOf 0 < dateOf retireNow - daysToRetire
    ∧ expiredRetirementFilter (dateOf retireNow - daysToRetire) c7wLic = false
    ∧ retireOne retireNow c7wLic = resetToUnassigned c7wLic :=
  ⟨by decide, by decide, by decide, by decide,
    (c7_assigned_licenses_reset retireNow c7wLic 0 (by decide) (by decide)
      (by decide) (by decide)).1⟩

/-- **C8 counterexample.** A `REVOKED` license with a non-null email and
a revoked date more than 90 days old does *not* keep its `revoked_date`
unchanged when its plan also expired more than 90 days ago: the
expired-plan loop (which ignores status) reaches it first and overwrites
`revoked_date` with the current time. -/
theorem c8_counterexample :
    c8Lic.status = LicenseStatus.revoked
    ∧ c8Lic.userEmail ≠ none
    ∧ c8Lic.revokedDate = some 0
    ∧ dateOf 0 < dateOf retireNow - daysToRetire
    ∧ (retireHandle retireNow [c8Lic]).map License.revokedDate
        ≠ [c8Lic.revokedDate] := by decide

/-- **C8 (amended).** Every `REVOKED` license with a non-null
`user_email` and a non-null `revoked_date` whose calendar day is more
than 90 days before today, *and whose plan did not itself expire more
than 90 days ago* (else the expired-plan loop rewrites it first), has
exactly its PII cleared by `retire_old_licenses`: the resulting record
is the original with `user_email := none`, so the status stays `REVOKED`
and `revoked_date` and every other field are unchanged. -/
theorem c8_revoked_licenses_pii_only (now : Int) (l : License) (d : Int)
    (hstat : l.status = LicenseStatus.revoked)
    (hmail : l.userEmail ≠ none)
    (hrd : l.revokedDate = some d)
    (hold : dateOf d < dateOf now - daysToRetire)
    (hnotexpired :
      ¬ l.subscriptionPlan.expirationDate < (dateOf now - daysToRetire) * usPerDay) :
    retireOne now l = { l with userEmail := none }
    ∧ ∀ db : List License, l ∈ db →
        { l with userEmail := none } ∈ retireHandle now db := by
  have h1 : retireExpiredStep (dateOf now - daysToRetire) now l = l := by
    unfold retireExpiredStep expiredRetirementFilter
    rw [if_neg]
    simp only [decide_eq_true_eq, not_and]
    exact fun _ => hnotexpired
  have h2 : retireRevokedStep (dateOf now - daysToRetire) l
      = { l with userEmail := none } := by
    unfold retireRevokedStep revokedRetirementFilter clearPii
    rw [hrd]
    rw [if_pos (by exact decide_eq_true ⟨hstat, hmail, hold⟩)]
  have h3 : retireAssignedStep (dateOf now - daysToRetire)
      { l with userEmail := none } = { l with userEmail := none } := by
    unfold retireAssignedStep assignedRetirementFilter
    cases ha : l.assignedDate with
    | none => simp [ha]
    | some a => simp [ha, hstat]
  have hone : retireOne now l = { l with userEmail := none } := by
    unfold retireOne
    rw [h1, h2, h3]
  refine ⟨hone, fun db hdb => ?_⟩
  rw [retireHandle_eq_map, ← hone]
  exact List.mem_map_of_mem _ hdb

theorem c8_revoked_licenses_pii_only_witness :
    c8wLic.status = LicenseStatus.revoked
    ∧ c8wLic.userEmail ≠ none
    ∧ c8wLic.revokedDate = some 0
    ∧ dateOf 0 < dateOf retireNow - daysToRetire
    ∧ ¬ c8wLic.subscriptionPlan.expirationDate
        < (dateOf retireNow - daysToRetire) * usPerDay
    ∧ retireOne retireNow c8wLic = { c8wLic with userEmail := none } :=
  ⟨by decide, by decide, by decide, by decide, by decide,
    (c8_revoked_licenses_pii_only retireNow c8wLic 0 (by decide) (by decide)
      (by decide) (by decide) (by decide)).1⟩

/-! ## Parsing theorems -/

theorem isSep_of_isWS {c : Char} (h : isWS c = true) : isSep c = true := by
  unfold isSep
  rw [h, Bool.or_true]

theorem not_isWS_of_not_isSep {c : Char} (h : isSep c = false) : isWS c = false := by
  unfold isSep at h
  exact (Bool.or_eq_false_iff.mp h).2

theorem reSplitSeps_sep_sep (c c2 : Char) (rest : List Char)
    (hc : isSep c = true) (h2 : isSep c2 = true) :
    reSplitSeps (c :: c2 :: rest) = reSplitSeps (c2 :: rest) := by
  simp only [reSplitSeps, hc, h2, if_true]

theorem reSplitSeps_sep_nonsep (c c2 : Char) (rest : List Char)
    (hc : isSep c = true) (h2 : isSep c2 = false) :
    reSplitSeps (c :: c2 :: rest) = [] :: reSplitSeps (c2 :: rest) := by
  simp only [reSplitSeps, hc, h2, if_true, Bool.false_eq_true, if_false]

theorem reSplitSeps_nonsep (c : Char) (rest : List Char) (hc : isSep c = false) :
    reSplitSeps (c :: rest)
      = match reSplitSeps rest with
        | [] => [[c]]
        | p :: ps => (c :: p) :: ps := by
  simp only [reSplitSeps, hc, Bool.false_eq_true, if_false]

theorem tokenize_sep (c : Char) (rest : List Char) (hc : isSep c = true) :
    tokenize (c :: rest) = tokenize rest := by
  simp only [tokenize, hc, if_true]

theorem tokenize_nonsep_nil (c : Char) (hc : isSep c = false) :
    tokenize [c] = [[c]] := by
  simp only [tokenize, hc, Bool.false_eq_true, if_false]

theorem tokenize_nonsep_sep (c c2 : Char) (rest : List Char)
    (hc : isSep c = false) (h2 : isSep c2 = true) :
    tokenize (c :: c2 :: rest) = [c] :: tokenize (c2 :: rest) := by
  simp only [tokenize, hc, h2, if_true, Bool.false_eq_true, if_false]

theorem tokenize_nonsep_nonsep (c c2 : Char) (rest : List Char)
    (hc : isSep c = false) (h2 : isSep c2 = false) :
    tokenize (c :: c2 :: rest)
      = match tokenize (c2 :: rest) with
        | [] => [[c]]
        | t :: ts => (c :: t) :: ts := by
  simp only [tokenize, hc, h2, Bool.false_eq_true, if_false]

theorem reSplitSeps_sep_head :
    ∀ (rest : List Char) (c : Char), isSep c = true →
      ∃ ps, reSplitSeps (c :: rest) = [] :: ps := by
  intro rest
  induction rest with
  | nil =>
    intro c hc
    refine ⟨[[]], ?_⟩
    simp only [reSplitSeps, hc, if_true]
  | cons c2 rest' ih =>
    intro c hc
    cases h2 : isSep c2 with
    | true =>
      obtain ⟨ps, hps⟩ := ih c2 h2
      exact ⟨ps, by rw [reSplitSeps_sep_sep c c2 rest' hc h2, hps]⟩
    | false =>
      exact ⟨reSplitSeps (c2 :: rest'), reSplitSeps_sep_nonsep c c2 rest' hc h2⟩

theorem reSplitSeps_nonsep_head (rest : List Char) (c : Char) (hc : isSep c = false) :
    ∃ p ps, reSplitSeps (c :: rest) = (c :: p) :: ps := by
  rw [reSplitSeps_nonsep c rest hc]
  cases hrec : reSplitSeps rest with
  | nil => exact ⟨[], [], rfl⟩
  | cons p ps => exact ⟨p, ps, rfl⟩

theorem reSplitSeps_no_sep :
    ∀ (l : List Char), ∀ t ∈ reSplitSeps l, ∀ c ∈ t, isSep c = false := by
  intro l
  induction l with
  | nil =>
    intro t ht c hc
    simp only [reSplitSeps, List.mem_singleton] at ht
    subst ht
    cases hc
  | cons a rest ih =>
    intro t ht c hc
    cases ha : isSep a with
    | true =>
      cases rest with
      | nil =>
        simp only [reSplitSeps, ha, if_true, List.mem_cons, List.mem_singleton,
          List.not_mem_nil, or_false] at ht
        rcases ht with h | h <;> (subst h; cases hc)
      | cons a2 rest' =>
        cases h2 : isSep a2 with
        | true =>
          rw [reSplitSeps_sep_sep a a2 rest' ha h2] at ht
          exact ih t ht c hc
        | false =>
          rw [reSplitSeps_sep_nonsep a a2 rest' ha h2] at ht
          rcases List.mem_cons.mp ht with h | h
          · subst h; cases hc
          · exact ih t h c hc
    | false =>
      rw [reSplitSeps_nonsep a rest ha] at ht
      cases hrec : reSplitSeps rest with
      | nil =>
        rw [hrec] at ht
        simp only [List.mem_singleton] at ht
        subst ht
        rcases List.mem_cons.mp hc with h | h
        · subst h; exact ha
        · cases h
      | cons p ps =>
        rw [hrec] at ht
        rcases List.mem_cons.mp ht with h | h
        · subst h
          rcases List.mem_cons.mp hc with h | h
          · subst h; exact ha
          · exact ih p (hrec ▸ List.mem_cons_self p ps) c h
        · exact ih t (hrec ▸ List.mem_cons_of_mem p h) c hc

theorem dropWhile_isWS_of_no_sep {t : List Char} (h : ∀ c ∈ t, isSep c = false) :
    t.dropWhile isWS = t := by
  cases t with
  | nil => rfl
  | cons c rest =>
    rw [List.dropWhile_cons]
    rw [not_isWS_of_not_isSep (h c (List.mem_cons_self c rest))]
    simp

theorem pyStrip_of_no_sep {t : List Char} (h : ∀ c ∈ t, isSep c = false) :
    pyStrip t = t := by
  unfold pyStrip
  rw [dropWhile_isWS_of_no_sep h]
  rw [dropWhile_isWS_of_no_sep (fun c hc => h c (List.mem_reverse.mp hc))]
  exact List.reverse_reverse t

theorem filter_reSplitSeps_eq_tokenize :
    ∀ l : List Char, (reSplitSeps l).filter (fun t => !t.isEmpty) = tokenize l := by
  intro l
  induction l with
  | nil => rfl
  | cons c rest ih =>
    cases hc : isSep c with
    | true =>
      rw [tokenize_sep c rest hc]
      cases rest with
      | nil =>
        simp only [reSplitSeps, hc, if_true]
        rfl
      | cons c2 rest' =>
        cases h2 : isSep c2 with
        | true => rw [reSplitSeps_sep_sep c c2 rest' hc h2]; exact ih
        | false =>
          rw [reSplitSeps_sep_nonsep c c2 rest' hc h2]
          rw [List.filter_cons]
          simpa using ih
    | false =>
      cases rest with
      | nil =>
        simp only [reSplitSeps, tokenize, hc, Bool.false_eq_true, if_false]
        rfl
      | cons c2 rest' =>
        cases h2 : isSep c2 with
        | true =>
          obtain ⟨ps, hps⟩ := reSplitSeps_sep_head rest' c2 h2
          rw [reSplitSeps_nonsep c (c2 :: rest') hc, hps]
          rw [tokenize_nonsep_sep c c2 rest' hc h2]
          rw [hps] at ih
          rw [List.filter_cons] at ih
          simp only [List.isEmpty_nil, Bool.not_true, Bool.false_eq_true, if_false] at ih
          rw [List.filter_cons]
          simp only [List.isEmpty_cons, Bool.not_false, if_true]
          rw [ih]
        | false =>
          obtain ⟨p, ps, hps⟩ := reSplitSeps_nonsep_head rest' c2 h2
          rw [reSplitSeps_nonsep c (c2 :: rest') hc, hps]
          rw [tokenize_nonsep_nonsep c c2 rest' hc h2]
          rw [hps] at ih
          rw [List.filter_cons] at ih
          simp only [List.isEmpty_cons, Bool.not_false, if_true] at ih
          rw [← ih]
          rw [List.filter_cons]
          simp only [List.isEmpty_cons, Bool.not_false, if_true]

theorem tokenize_all_sep {w : List Char} (h : ∀ c ∈ w, isSep c = true) :
    tokenize w = [] := by
  induction w with
  | nil => rfl
  | cons c rest ih =>
    rw [tokenize_sep c rest (h c (List.mem_cons_self c rest))]
    exact ih fun c hc => h c (List.mem_cons_of_mem _ hc)

theorem tokenize_append_sep {w : List Char} (hw : ∀ c ∈ w, isSep c = true) :
    ∀ m : List Char, tokenize (m ++ w) = tokenize m := by
  intro m
  induction m with
  | nil =>
    rw [List.nil_append]
    exact tokenize_all_sep hw
  | cons c m' ih =>
    rw [List.cons_append]
    cases hc : isSep c with
    | true => rw [tokenize_sep c _ hc, tokenize_sep c _ hc]; exact ih
    | false =>
      cases m' with
      | nil =>
        rw [List.nil_append]
        cases hwc : w with
        | nil => rfl
        | cons c2 w' =>
          have h2 : isSep c2 = true := hw c2 (by rw [hwc]; exact List.mem_cons_self c2 w')
          rw [tokenize_nonsep_sep c c2 w' hc h2]
          rw [tokenize_all_sep fun x hx => hw x (by rw [hwc]; exact hx)]
          exact (tokenize_nonsep_nil c hc).symm
      | cons c2 m'' =>
        rw [List.cons_append]
        cases h2 : isSep c2 with
        | true =>
          rw [tokenize_nonsep_sep c c2 (m'' ++ w) hc h2]
          rw [tokenize_nonsep_sep c c2 m'' hc h2]
          rw [List.cons_append] at ih
          rw [ih]
        | false =>
          rw [tokenize_nonsep_nonsep c c2 (m'' ++ w) hc h2]
          rw [tokenize_nonsep_nonsep c c2 m'' hc h2]
          rw [List.cons_append] at ih
          rw [ih]

theorem tokenize_dropWhile_isWS (l : List Char) :
    tokenize (l.dropWhile isWS) = tokenize l := by
  induction l with
  | nil => rfl
  | cons c rest ih =>
    rw [List.dropWhile_cons]
    cases hw : isWS c with
    | true =>
      simp only [if_true]
      rw [tokenize_sep c rest (isSep_of_isWS hw)]
      exact ih
    | false => simp

theorem tokenize_pyStrip (l : List Char) : tokenize (pyStrip l) = tokenize l := by
  unfold pyStrip
  have hm : ∀ m : List Char, tokenize ((m.reverse.dropWhile isWS).reverse) = tokenize m := by
    intro m
    have hdecomp : m = (m.reverse.dropWhile isWS).reverse
        ++ (m.reverse.takeWhile isWS).reverse := by
      conv_lhs => rw [← List.reverse_reverse m]
      rw [← List.reverse_append, List.takeWhile_append_dropWhile]
    have hws : ∀ c ∈ (m.reverse.takeWhile isWS).reverse, isSep c = true := by
      intro c hcmem
      exact isSep_of_isWS (List.mem_takeWhile_imp (List.mem_reverse.mp hcmem))
    conv_rhs => rw [hdecomp]
    exact (tokenize_append_sep hws _).symm
  rw [hm (l.dropWhile isWS)]
  exact tokenize_dropWhile_isWS l

theorem parseTokens_eq_tokenize (s : List Char) : parseTokens s = tokenize s := by
  unfold parseTokens
  have hns := reSplitSeps_no_sep (pyStrip s)
  have hmap : (reSplitSeps (pyStrip s)).map pyStrip = reSplitSeps (pyStrip s) := by
    conv_rhs => rw [← List.map_id (reSplitSeps (pyStrip s))]
    exact List.map_congr_left fun t ht => pyStrip_of_no_sep (hns t ht)
  rw [hmap, filter_reSplitSeps_eq_tokenize, tokenize_pyStrip]

/-! ## Email idempotency machinery lemmas -/

section EmailMachinery

variable {getS : License → Option Int} {setS : Int → License → License}

theorem marked_update_map
    (hset : ∀ n x, getS (setS n x) = some n)
    {db : List License} {u : Nat} (v : Nat) (now : Int)
    (h : markedOn getS db u) :
    markedOn getS (db.map fun x => if x.uuid = v then setS now x else x) u := by
  intro l hl hlu
  rcases List.mem_map.mp hl with ⟨x, hx, hxe⟩
  by_cases hv : x.uuid = v
  · rw [if_pos hv] at hxe
    subst hxe
    rw [hset]
    rfl
  · rw [if_neg hv] at hxe
    subst hxe
    exact h x hx hlu

theorem marked_update_self
    (hset : ∀ n x, getS (setS n x) = some n)
    {db : List License} (u : Nat) (now : Int) :
    markedOn getS (db.map fun x => if x.uuid = u then setS now x else x) u := by
  intro l hl hlu
  rcases List.mem_map.mp hl with ⟨x, hx, hxe⟩
  by_cases hv : x.uuid = u
  · rw [if_pos hv] at hxe
    subst hxe
    rw [hset]
    rfl
  · rw [if_neg hv] at hxe
    subst hxe
    exact absurd hlu hv

theorem update_map_uuid (huuid : ∀ n x, (setS n x).uuid = x.uuid)
    (db : List License) (v : Nat) (now : Int) :
    (db.map fun x => if x.uuid = v then setS now x else x).map License.uuid
      = db.map License.uuid := by
  rw [List.map_map]
  refine List.map_congr_left fun x _ => ?_
  by_cases hv : x.uuid = v
  · simp [Function.comp, hv, huuid]
  · simp [Function.comp, hv]

theorem processLicenses_uuid_map (huuid : ∀ n x, (setS n x).uuid = x.uuid)
    (outcome : License → SendOutcome) (now : Int) :
    ∀ (sel db : List License),
      (processLicenses setS outcome now db sel).db.map License.uuid
        = db.map License.uuid := by
  intro sel
  induction sel with
  | nil => intro db; rfl
  | cons l rest ih =>
    intro db
    simp only [processLicenses]
    cases ho : outcome l with
    | valueError => rfl
    | success =>
      rw [ih]
      exact update_map_uuid huuid db l.uuid now
    | brazeError => exact ih db
    | otherError => exact ih db

theorem processLicenses_marked
    (hset : ∀ n x, getS (setS n x) = some n)
    (outcome : License → SendOutcome) (now : Int) {u : Nat} :
    ∀ (sel db : List License), markedOn getS db u →
      markedOn getS (processLicenses setS outcome now db sel).db u := by
  intro sel
  induction sel with
  | nil => intro db h; exact h
  | cons l rest ih =>
    intro db h
    simp only [processLicenses]
    cases ho : outcome l with
    | valueError => exact h
    | success => exact ih _ (marked_update_map hset l.uuid now h)
    | brazeError => exact ih _ h
    | otherError => exact ih _ h

theorem processLicenses_sent_marked
    (hset : ∀ n x, getS (setS n x) = some n)
    (outcome : License → SendOutcome) (now : Int) {u : Nat} :
    ∀ (sel db : List License),
      u ∈ (processLicenses setS outcome now db sel).sent →
      markedOn getS (processLicenses setS outcome now db sel).db u := by
  intro sel
  induction sel with
  | nil => intro db h; exact absurd h (List.not_mem_nil u)
  | cons l rest ih =>
    intro db
    simp only [processLicenses]
    cases ho : outcome l with
    | valueError => intro h; exact absurd h (List.not_mem_nil u)
    | success =>
      intro h
      rcases List.mem_cons.mp h with h | h
      · subst h
        exact processLicenses_marked hset outcome now rest _
          (marked_update_self hset l.uuid now)
      · exact ih _ h
    | brazeError => intro h; exact ih _ h
    | otherError => intro h; exact ih _ h

theorem processLicenses_sent_sublist (outcome : License → SendOutcome) (now : Int) :
    ∀ (sel db : List License),
      List.Sublist (processLicenses setS outcome now db sel).sent (sel.map License.uuid) := by
  intro sel
  induction sel with
  | nil => intro db; exact List.Sublist.refl []
  | cons l rest ih =>
    intro db
    simp only [processLicenses, List.map_cons]
    cases ho : outcome l with
    | valueError => exact List.nil_sublist _
    | success => exact List.Sublist.cons₂ l.uuid (ih _)
    | brazeError => exact List.Sublist.cons l.uuid (ih _)
    | otherError => exact List.Sublist.cons l.uuid (ih _)

theorem processLicenses_not_aborted (outcome : License → SendOutcome) (now : Int) :
    ∀ (sel db : List License),
      (∀ x ∈ sel, outcome x ≠ SendOutcome.valueError) →
      (processLicenses setS outcome now db sel).aborted = false := by
  intro sel
  induction sel with
  | nil => intro db _; rfl
  | cons l rest ih =>
    intro db h
    simp only [processLicenses]
    cases ho : outcome l with
    | valueError => exact absurd ho (h l (List.mem_cons_self l rest))
    | success => exact ih _ fun x hx => h x (List.mem_cons_of_mem l hx)
    | brazeError => exact ih _ fun x hx => h x (List.mem_cons_of_mem l hx)
    | otherError => exact ih _ fun x hx => h x (List.mem_cons_of_mem l hx)

theorem processLicenses_fail_pos (outcome : License → SendOutcome) (now : Int) :
    ∀ (sel db : List License) (l : License), l ∈ sel →
      (outcome l = SendOutcome.brazeError ∨ outcome l = SendOutcome.otherError) →
      (∀ x ∈ sel, outcome x ≠ SendOutcome.valueError) →
      1 ≤ (processLicenses setS outcome now db sel).fail := by
  intro sel
  induction sel with
  | nil => intro db l hl; exact absurd hl (List.not_mem_nil l)
  | cons x rest ih =>
    intro db l hl hfail hVE
    simp only [processLicenses]
    cases hx : outcome x with
    | valueError => exact absurd hx (hVE x (List.mem_cons_self x rest))
    | success =>
      have hlr : l ∈ rest := by
        rcases List.mem_cons.mp hl with h | h
        · subst h
          rcases hfail with h | h <;> (rw [hx] at h; cases h)
        · exact h
      exact ih _ l hlr hfail fun y hy => hVE y (List.mem_cons_of_mem x hy)
    | brazeError => exact Nat.le_add_left 1 _
    | otherError => exact Nat.le_add_left 1 _

theorem processLicenses_preserves (outcome : License → SendOutcome) (now : Int) :
    ∀ (sel db : List License) (x : License), x ∈ db →
      (∀ l ∈ sel, outcome l = SendOutcome.success → l.uuid ≠ x.uuid) →
      x ∈ (processLicenses setS outcome now db sel).db := by
  intro sel
  induction sel with
  | nil => intro db x hx _; exact hx
  | cons l rest ih =>
    intro db x hx hns
    simp only [processLicenses]
    cases ho : outcome l with
    | valueError => exact hx
    | success =>
      refine ih _ x ?_ fun y hy hys => hns y (List.mem_cons_of_mem l hy) hys
      have : (if x.uuid = l.uuid then setS now x else x) = x := by
        rw [if_neg fun he => hns l (List.mem_cons_self l rest) ho he.symm]
      exact this ▸ List.mem_map_of_mem _ hx
    | brazeError => exact ih _ x hx fun y hy hys => hns y (List.mem_cons_of_mem l hy) hys
    | otherError => exact ih _ x hx fun y hy hys => hns y (List.mem_cons_of_mem l hy) hys

theorem processCustomer_dryRun (sel : List License → List License)
    (setS : Int → License → License) (outcome : License → SendOutcome)
    (apiOk : Bool) (now : Int) (db : List License) :
    processCustomer sel setS outcome apiOk true now db
      = ⟨db, 0, 0, [], false, CustOutcome.ok⟩ := by
  simp only [processCustomer]
  split
  · rfl
  · rfl

theorem processCustomer_uuid_map (huuid : ∀ n x, (setS n x).uuid = x.uuid)
    (sel : List License → List License) (outcome : License → SendOutcome)
    (apiOk dryRun : Bool) (now : Int) (db : List License) :
    (processCustomer sel setS outcome apiOk dryRun now db).db.map License.uuid
      = db.map License.uuid := by
  simp only [processCustomer]
  split
  · rfl
  · split
    · rfl
    · split
      · rfl
      · split
        · exact processLicenses_uuid_map huuid outcome now (sel db) db
        · exact processLicenses_uuid_map huuid outcome now (sel db) db

theorem processCustomer_sent_sublist
    (sel : List License → List License) (setS : Int → License → License)
    (outcome : License → SendOutcome)
    (apiOk dryRun : Bool) (now : Int) (db : List License) :
    List.Sublist (processCustomer sel setS outcome apiOk dryRun now db).sent
      ((sel db).map License.uuid) := by
  simp only [processCustomer]
  split
  · exact List.nil_sublist _
  · split
    · exact List.nil_sublist _
    · split
      · exact List.nil_sublist _
      · split
        · exact processLicenses_sent_sublist outcome now (sel db) db
        · exact processLicenses_sent_sublist outcome now (sel db) db

theorem processCustomer_marked
    (hset : ∀ n x, getS (setS n x) = some n)
    (sel : List License → List License) (outcome : License → SendOutcome)
    (apiOk dryRun : Bool) (now : Int) (db : List License) {u : Nat}
    (hsub : ∀ l ∈ sel db, l ∈ db)
    (hnone : ∀ l ∈ sel db, getS l = none)
    (hm : markedOn getS db u) :
    (processCustomer sel setS outcome apiOk dryRun now db).sent.count u = 0
    ∧ markedOn getS (processCustomer sel setS outcome apiOk dryRun now db).db u := by
  have husel : u ∉ (sel db).map License.uuid := by
    intro hmem
    rcases List.mem_map.mp hmem with ⟨l, hl, hlu⟩
    have h1 := hm l (hsub l hl) hlu
    rw [hnone l hl] at h1
    exact absurd h1 (by simp)
  have hnotmem : u ∉ (processLicenses setS outcome now db (sel db)).sent :=
    fun hin =>
      husel ((processLicenses_sent_sublist outcome now (sel db) db).subset hin)
  simp only [processCustomer]
  split
  · exact ⟨rfl, hm⟩
  · split
    · exact ⟨rfl, hm⟩
    · split
      · exact ⟨rfl, hm⟩
      · split
        · exact ⟨List.count_eq_zero.mpr hnotmem,
            processLicenses_marked hset outcome now _ db hm⟩
        · exact ⟨List.count_eq_zero.mpr hnotmem,
            processLicenses_marked hset outcome now _ db hm⟩

theorem processCustomer_sent_marked
    (hset : ∀ n x, getS (setS n x) = some n)
    (sel : List License → List License) (outcome : License → SendOutcome)
    (apiOk dryRun : Bool) (now : Int) (db : List License) {u : Nat} :
    u ∈ (processCustomer sel setS outcome apiOk dryRun now db).sent →
    markedOn getS (processCustomer sel setS outcome apiOk dryRun now db).db u := by
  simp only [processCustomer]
  split
  · intro h; exact absurd h (List.not_mem_nil u)
  · split
    · intro h; exact absurd h (List.not_mem_nil u)
    · split
      · intro h; exact absurd h (List.not_mem_nil u)
      · split
        · exact fun h => processLicenses_sent_marked hset outcome now (sel db) db h
        · exact fun h => processLicenses_sent_marked hset outcome now (sel db) db h

theorem processCustomer_count_le
    (sel : List License → List License) (setS : Int → License → License)
    (outcome : License → SendOutcome)
    (apiOk dryRun : Bool) (now : Int) (db : List License) (u : Nat)
    (hselsub : List.Sublist (sel db) db) :
    (processCustomer sel setS outcome apiOk dryRun now db).sent.count u
      ≤ (db.map License.uuid).count u :=
  le_trans
    ((processCustomer_sent_sublist sel setS outcome apiOk dryRun now db).count_le u)
    ((hselsub.map License.uuid).count_le u)

theorem handleLoop_uuid_map (huuid : ∀ n x, (setS n x).uuid = x.uuid)
    (selC : List Char → List License → List License)
    (outcome : List Char → License → SendOutcome)
    (apiOk : List Char → Bool) (dryRun : Bool) (now : Int) :
    ∀ (uuids : List (List Char)) (db : List License),
      (handleLoop selC setS outcome apiOk dryRun now db uuids).db.map License.uuid
        = db.map License.uuid := by
  intro uuids
  induction uuids with
  | nil => intro db; rfl
  | cons ec rest ih =>
    intro db
    simp only [handleLoop]
    cases hc : (processCustomer (selC ec) setS (outcome ec) (apiOk ec)
        dryRun now db).outcome with
    | raisedValueError => exact processCustomer_uuid_map huuid _ _ _ _ _ _
    | raisedOther =>
      rw [ih]
      exact processCustomer_uuid_map huuid _ _ _ _ _ _
    | ok =>
      rw [ih]
      exact processCustomer_uuid_map huuid _ _ _ _ _ _

theorem handleLoop_marked
    (hset : ∀ n x, getS (setS n x) = some n)
    (selC : List Char → List License → List License)
    (outcome : List Char → License → SendOutcome)
    (apiOk : List Char → Bool) (dryRun : Bool) (now : Int)
    (hsub : ∀ ec db, ∀ l ∈ selC ec db, l ∈ db)
    (hnone : ∀ ec db, ∀ l ∈ selC ec db, getS l = none) :
    ∀ (uuids : List (List Char)) (db : List License) (u : Nat),
      markedOn getS db u →
      (handleLoop selC setS outcome apiOk dryRun now db uuids).sent.count u = 0
      ∧ markedOn getS
          (handleLoop selC setS outcome apiOk dryRun now db uuids).db u := by
  intro uuids
  induction uuids with
  | nil => intro db u hm; exact ⟨rfl, hm⟩
  | cons ec rest ih =>
    intro db u hm
    have hc' := processCustomer_marked hset (selC ec) (outcome ec) (apiOk ec)
      dryRun now db (hsub ec db) (hnone ec db) hm
    simp only [handleLoop]
    cases hc : (processCustomer (selC ec) setS (outcome ec) (apiOk ec)
        dryRun now db).outcome with
    | raisedValueError => exact hc'
    | raisedOther =>
      have hr := ih _ u hc'.2
      refine ⟨?_, hr.2⟩
      rw [List.count_append, hc'.1, hr.1]
    | ok =>
      have hr := ih _ u hc'.2
      refine ⟨?_, hr.2⟩
      rw [List.count_append, hc'.1, hr.1]

theorem handleLoop_sent_marked
    (hset : ∀ n x, getS (setS n x) = some n)
    (selC : List Char → List License → List License)
    (outcome : List Char → License → SendOutcome)
    (apiOk : List Char → Bool) (dryRun : Bool) (now : Int)
    (hsub : ∀ ec db, ∀ l ∈ selC ec db, l ∈ db)
    (hnone : ∀ ec db, ∀ l ∈ selC ec db, getS l = none) :
    ∀ (uuids : List (List Char)) (db : List License) (u : Nat),
      u ∈ (handleLoop selC setS outcome apiOk dryRun now db uuids).sent →
      markedOn getS (handleLoop selC setS outcome apiOk dryRun now db uuids).db u := by
  intro uuids
  induction uuids with
  | nil => intro db u h; exact absurd h (List.not_mem_nil u)
  | cons ec rest ih =>
    intro db u
    simp only [handleLoop]
    cases hc : (processCustomer (selC ec) setS (outcome ec) (apiOk ec)
        dryRun now db).outcome with
    | raisedValueError =>
      exact fun h => processCustomer_sent_marked hset _ _ _ _ _ _ h
    | raisedOther =>
      intro h
      rcases List.mem_append.mp h with h | h
      · have hcm := processCustomer_sent_marked hset (selC ec) (outcome ec)
          (apiOk ec) dryRun now db h
        exact (handleLoop_marked hset selC outcome apiOk dryRun now hsub hnone
          rest _ u hcm).2
      · exact ih _ u h
    | ok =>
      intro h
      rcases List.mem_append.mp h with h | h
      · have hcm := processCustomer_sent_marked hset (selC ec) (outcome ec)
          (apiOk ec) dryRun now db h
        exact (handleLoop_marked hset selC outcome apiOk dryRun now hsub hnone
          rest _ u hcm).2
      · exact ih _ u h

theorem handleLoop_count
    (hset : ∀ n x, getS (setS n x) = some n)
    (huuid : ∀ n x, (setS n x).uuid = x.uuid)
    (selC : List Char → List License → List License)
    (outcome : List Char → License → SendOutcome)
    (apiOk : List Char → Bool) (dryRun : Bool) (now : Int)
    (hsub : ∀ ec db, ∀ l ∈ selC ec db, l ∈ db)
    (hnone : ∀ ec db, ∀ l ∈ selC ec db, getS l = none)
    (hselsub : ∀ ec db, List.Sublist (selC ec db) db) :
    ∀ (uuids : List (List Char)) (db : List License) (u : Nat),
      (db.map License.uuid).Nodup →
      (handleLoop selC setS outcome apiOk dryRun now db uuids).sent.count u ≤ 1 := by
  intro uuids
  induction uuids with
  | nil => intro db u _; exact Nat.zero_le 1
  | cons ec rest ih =>
    intro db u hnd
    have hcle : (processCustomer (selC ec) setS (outcome ec) (apiOk ec)
        dryRun now db).sent.count u ≤ 1 :=
      le_trans (processCustomer_count_le (selC ec) setS (outcome ec) (apiOk ec)
        dryRun now db u (hselsub ec db))
        (List.nodup_iff_count_le_one.mp hnd u)
    have hndc : ((processCustomer (selC ec) setS (outcome ec) (apiOk ec)
        dryRun now db).db.map License.uuid).Nodup := by
      rw [processCustomer_uuid_map huuid]
      exact hnd
    simp only [handleLoop]
    cases hc : (processCustomer (selC ec) setS (outcome ec) (apiOk ec)
        dryRun now db).outcome with
    | raisedValueError => exact hcle
    | raisedOther =>
      rw [List.count_append]
      by_cases hmem : u ∈ (processCustomer (selC ec) setS (outcome ec) (apiOk ec)
          dryRun now db).sent
      · have hcm := processCustomer_sent_marked hset (selC ec) (outcome ec)
          (apiOk ec) dryRun now db hmem
        have hr0 := (handleLoop_marked hset selC outcome apiOk dryRun now hsub
          hnone rest _ u hcm).1
        rw [hr0]
        exact le_trans (Nat.le_of_eq (Nat.add_zero _)) hcle
      · rw [List.count_eq_zero.mpr hmem]
        rw [Nat.zero_add]
        exact ih _ u hndc
    | ok =>
      rw [List.count_append]
      by_cases hmem : u ∈ (processCustomer (selC ec) setS (outcome ec) (apiOk ec)
          dryRun now db).sent
      · have hcm := processCustomer_sent_marked hset (selC ec) (outcome ec)
          (apiOk ec) dryRun now db hmem
        have hr0 := (handleLoop_marked hset selC outcome apiOk dryRun now hsub
          hnone rest _ u hcm).1
        rw [hr0]
        exact le_trans (Nat.le_of_eq (Nat.add_zero _)) hcle
      · rw [List.count_eq_zero.mpr hmem]
        rw [Nat.zero_add]
        exact ih _ u hndc

end EmailMachinery

theorem handleCommand_cases (setS : Int → License → License)
    (valid : List Char → Bool)
    (selC : List Char → List License → List License)
    (outcome : List Char → License → SendOutcome)
    (apiOk : List Char → Bool) (s : List Char) (dryRun : Bool) (now : Int)
    (db : List License) :
    ((handleCommand valid selC setS outcome apiOk s dryRun now db).db = db
      ∧ (handleCommand valid selC setS outcome apiOk s dryRun now db).sent = [])
    ∨ ∃ uuids,
        parseEnterpriseCustomerUuids valid s = Except.ok uuids
        ∧ (handleCommand valid selC setS outcome apiOk s dryRun now db).db
            = (handleLoop selC setS outcome apiOk dryRun now db uuids).db
        ∧ (handleCommand valid selC setS outcome apiOk s dryRun now db).sent
            = (handleLoop selC setS outcome apiOk dryRun now db uuids).sent := by
  unfold handleCommand
  cases hp : parseEnterpriseCustomerUuids valid s with
  | error e => left; exact ⟨rfl, rfl⟩
  | ok uuids =>
    cases uuids with
    | nil => left; exact ⟨rfl, rfl⟩
    | cons a rest =>
      right
      refine ⟨a :: rest, rfl, ?_, ?_⟩ <;> (simp only []; split)
      · rfl
      · split <;> rfl
      · rfl
      · split <;> rfl

theorem handleCommand_uuid_map (setS : Int → License → License)
    (huuid : ∀ n x, (setS n x).uuid = x.uuid)
    (valid : List Char → Bool)
    (selC : List Char → List License → List License)
    (outcome : List Char → License → SendOutcome)
    (apiOk : List Char → Bool) (s : List Char) (dryRun : Bool) (now : Int)
    (db : List License) :
    (handleCommand valid selC setS outcome apiOk s dryRun now db).db.map License.uuid
      = db.map License.uuid := by
  rcases handleCommand_cases setS valid selC outcome apiOk s dryRun now db with
    ⟨hdb, _⟩ | ⟨uuids, _, hdb, _⟩
  · rw [hdb]
  · rw [hdb]
    exact handleLoop_uuid_map huuid selC outcome apiOk dryRun now uuids db

theorem handleCommand_count (getS : License → Option Int)
    (setS : Int → License → License)
    (hset : ∀ n x, getS (setS n x) = some n)
    (huuid : ∀ n x, (setS n x).uuid = x.uuid)
    (valid : List Char → Bool)
    (selC : List Char → List License → List License)
    (outcome : List Char → License → SendOutcome)
    (apiOk : List Char → Bool) (s : List Char) (dryRun : Bool) (now : Int)
    (db : List License) (u : Nat)
    (hsub : ∀ ec db, ∀ l ∈ selC ec db, l ∈ db)
    (hnone : ∀ ec db, ∀ l ∈ selC ec db, getS l = none)
    (hselsub : ∀ ec db, List.Sublist (selC ec db) db)
    (hnd : (db.map License.uuid).Nodup) :
    (handleCommand valid selC setS outcome apiOk s dryRun now db).sent.count u ≤ 1 := by
  rcases handleCommand_cases setS valid selC outcome apiOk s dryRun now db with
    ⟨_, hsent⟩ | ⟨uuids, _, _, hsent⟩
  · rw [hsent]; exact Nat.zero_le 1
  · rw [hsent]
    exact handleLoop_count hset huuid selC outcome apiOk dryRun now hsub hnone
      hselsub uuids db u hnd

theorem handleCommand_marked (getS : License → Option Int)
    (setS : Int → License → License)
    (hset : ∀ n x, getS (setS n x) = some n)
    (valid : List Char → Bool)
    (selC : List Char → List License → List License)
    (outcome : List Char → License → SendOutcome)
    (apiOk : List Char → Bool) (s : List Char) (dryRun : Bool) (now : Int)
    (db : List License) (u : Nat)
    (hsub : ∀ ec db, ∀ l ∈ selC ec db, l ∈ db)
    (hnone : ∀ ec db, ∀ l ∈ selC ec db, getS l = none)
    (hm : markedOn getS db u) :
    (handleCommand valid selC setS outcome apiOk s dryRun now db).sent.count u = 0
    ∧ markedOn getS (handleCommand valid selC setS outcome apiOk s dryRun now db).db u := by
  rcases handleCommand_cases setS valid selC outcome apiOk s dryRun now db with
    ⟨hdb, hsent⟩ | ⟨uuids, _, hdb, hsent⟩
  · rw [hdb, hsent]; exact ⟨rfl, hm⟩
  · rw [hdb, hsent]
    exact handleLoop_marked hset selC outcome apiOk dryRun now hsub hnone
      uuids db u hm

theorem handleCommand_sent_marked (getS : License → Option Int)
    (setS : Int → License → License)
    (hset : ∀ n x, getS (setS n x) = some n)
    (valid : List Char → Bool)
    (selC : List Char → List License → List License)
    (outcome : List Char → License → SendOutcome)
    (apiOk : List Char → Bool) (s : List Char) (dryRun : Bool) (now : Int)
    (db : List License) (u : Nat)
    (hsub : ∀ ec db, ∀ l ∈ selC ec db, l ∈ db)
    (hnone : ∀ ec db, ∀ l ∈ selC ec db, getS l = none) :
    u ∈ (handleCommand valid selC setS outcome apiOk s dryRun now db).sent →
    markedOn getS (handleCommand valid selC setS outcome apiOk s dryRun now db).db u := by
  rcases handleCommand_cases setS valid selC outcome apiOk s dryRun now db with
    ⟨hdb, hsent⟩ | ⟨uuids, _, hdb, hsent⟩
  · rw [hdb, hsent]
    intro h
    exact absurd h (List.not_mem_nil u)
  · rw [hdb, hsent]
    exact handleLoop_sent_marked hset selC outcome apiOk dryRun now hsub hnone
      uuids db u

theorem runSequence_marked (getS : License → Option Int)
    (runOne : RunEnv → List License → HandleOut)
    (h_marked : ∀ e db u, markedOn getS db u →
        (runOne e db).sent.count u = 0 ∧ markedOn getS (runOne e db).db u) :
    ∀ (envs : List RunEnv) (db : List License) (u : Nat),
      markedOn getS db u → (runSequence runOne envs db).2.count u = 0 := by
  intro envs
  induction envs with
  | nil => intro db u _; rfl
  | cons e es ih =>
    intro db u hm
    simp only [runSequence]
    rw [List.count_append]
    rw [(h_marked e db u hm).1, ih _ u (h_marked e db u hm).2]

theorem runSequence_count (getS : License → Option Int)
    (runOne : RunEnv → List License → HandleOut)
    (h_uuid : ∀ e db, (runOne e db).db.map License.uuid = db.map License.uuid)
    (h_count : ∀ e db u, (db.map License.uuid).Nodup →
        (runOne e db).sent.count u ≤ 1)
    (h_marked : ∀ e db u, markedOn getS db u →
        (runOne e db).sent.count u = 0 ∧ markedOn getS (runOne e db).db u)
    (h_sent_marked : ∀ e db u, u ∈ (runOne e db).sent →
        markedOn getS (runOne e db).db u) :
    ∀ (envs : List RunEnv) (db : List License) (u : Nat),
      (db.map License.uuid).Nodup → (runSequence runOne envs db).2.count u ≤ 1 := by
  intro envs
  induction envs with
  | nil => intro db u _; exact Nat.zero_le 1
  | cons e es ih =>
    intro db u hnd
    simp only [runSequence]
    rw [List.count_append]
    by_cases hmem : u ∈ (runOne e db).sent
    · have hm := h_sent_marked e db u hmem
      rw [runSequence_marked getS runOne h_marked es _ u hm]
      exact le_trans (Nat.le_of_eq (Nat.add_zero _)) (h_count e db u hnd)
    · rw [List.count_eq_zero.mpr hmem, Nat.zero_add]
      refine ih _ u ?_
      rw [h_uuid e db]
      exact hnd

theorem markedOn_of_mem (getS : License → Option Int)
    {db : List License} {l : License} {u : Nat}
    (hnd : (db.map License.uuid).Nodup) (hl : l ∈ db) (hu : l.uuid = u)
    (hs : (getS l).isSome = true) : markedOn getS db u := by
  intro l' hl' hu'
  have : l' = l :=
    List.inj_on_of_nodup_map hnd hl' hl (by rw [hu', hu])
  rw [this]
  exact hs

/-! ## Selection query facts -/

theorem expiring_sel_mem (ec : List Char) (days now : Int) (db : List License) :
    ∀ l ∈ getExpiringLicenses ec days now db, l ∈ db :=
  fun _ h => List.mem_of_mem_filter h

theorem expiring_sel_none (ec : List Char) (days now : Int) (db : List License) :
    ∀ l ∈ getExpiringLicenses ec days now db,
      l.expirationReminderSentDate = none := by
  intro l h
  have hf := List.of_mem_filter h
  unfold expiringLicenseFilter at hf
  exact (decide_eq_true_eq.mp hf).2.2.2.2

theorem expiring_sel_sublist (ec : List Char) (days now : Int) (db : List License) :
    List.Sublist (getExpiringLicenses ec days now db) db :=
  List.filter_sublist db

theorem recentlyExpired_sel_mem (ec : List Char) (days now : Int)
    (db : List License) :
    ∀ l ∈ getRecentlyExpiredPlanLicenses ec days now db, l ∈ db :=
  fun _ h => List.mem_of_mem_filter h

theorem recentlyExpired_sel_none (ec : List Char) (days now : Int)
    (db : List License) :
    ∀ l ∈ getRecentlyExpiredPlanLicenses ec days now db,
      l.subscriptionPlanExpirationEmailSentDate = none := by
  intro l h
  have hf := List.of_mem_filter h
  unfold recentlyExpiredPlanFilter at hf
  exact (decide_eq_true_eq.mp hf).2.2.2.2

theorem recentlyExpired_sel_sublist (ec : List Char) (days now : Int)
    (db : List License) :
    List.Sublist (getRecentlyExpiredPlanLicenses ec days now db) db :=
  List.filter_sublist db

/-! ## Per-run properties of the two commands -/

theorem remindersRun_uuid_map (e : RunEnv) (db : List License) :
    (remindersRun e db).db.map License.uuid = db.map License.uuid :=
  handleCommand_uuid_map setReminderSent (fun _ _ => rfl) e.valid
    (fun ec => getExpiringLicenses ec e.days e.now) e.outcome e.apiOk
    e.uuidString e.dryRun e.now db

theorem remindersRun_count (e : RunEnv) (db : List License) (u : Nat)
    (hnd : (db.map License.uuid).Nodup) :
    (remindersRun e db).sent.count u ≤ 1 :=
  handleCommand_count License.expirationReminderSentDate setReminderSent
    (fun _ _ => rfl) (fun _ _ => rfl) e.valid
    (fun ec => getExpiringLicenses ec e.days e.now) e.outcome e.apiOk
    e.uuidString e.dryRun e.now db u
    (fun ec db => expiring_sel_mem ec e.days e.now db)
    (fun ec db => expiring_sel_none ec e.days e.now db)
    (fun ec db => expiring_sel_sublist ec e.days e.now db) hnd

theorem remindersRun_marked (e : RunEnv) (db : List License) (u : Nat)
    (hm : markedOn License.expirationReminderSentDate db u) :
    (remindersRun e db).sent.count u = 0
    ∧ markedOn License.expirationReminderSentDate (remindersRun e db).db u :=
  handleCommand_marked License.expirationReminderSentDate setReminderSent
    (fun _ _ => rfl) e.valid
    (fun ec => getExpiringLicenses ec e.days e.now) e.outcome e.apiOk
    e.uuidString e.dryRun e.now db u
    (fun ec db => expiring_sel_mem ec e.days e.now db)
    (fun ec db => expiring_sel_none ec e.days e.now db) hm

theorem remindersRun_sent_marked (e : RunEnv) (db : List License) (u : Nat)
    (h : u ∈ (remindersRun e db).sent) :
    markedOn License.expirationReminderSentDate (remindersRun e db).db u :=
  handleCommand_sent_marked License.expirationReminderSentDate setReminderSent
    (fun _ _ => rfl) e.valid
    (fun ec => getExpiringLicenses ec e.days e.now) e.outcome e.apiOk
    e.uuidString e.dryRun e.now db u
    (fun ec db => expiring_sel_mem ec e.days e.now db)
    (fun ec db => expiring_sel_none ec e.days e.now db) h

theorem planExpirationRun_uuid_map (e : RunEnv) (db : List License) :
    (planExpirationRun e db).db.map License.uuid = db.map License.uuid :=
  handleCommand_uuid_map setPlanExpirationSent (fun _ _ => rfl) e.valid
    (fun ec => getRecentlyExpiredPlanLicenses ec e.days e.now) e.outcome e.apiOk
    e.uuidString e.dryRun e.now db

theorem planExpirationRun_count (e : RunEnv) (db : List License) (u : Nat)
    (hnd : (db.map License.uuid).Nodup) :
    (planExpirationRun e db).sent.count u ≤ 1 :=
  handleCommand_count License.subscriptionPlanExpirationEmailSentDate
    setPlanExpirationSent (fun _ _ => rfl) (fun _ _ => rfl) e.valid
    (fun ec => getRecentlyExpiredPlanLicenses ec e.days e.now) e.outcome e.apiOk
    e.uuidString e.dryRun e.now db u
    (fun ec db => recentlyExpired_sel_mem ec e.days e.now db)
    (fun ec db => recentlyExpired_sel_none ec e.days e.now db)
    (fun ec db => recentlyExpired_sel_sublist ec e.days e.now db) hnd

theorem planExpirationRun_marked (e : RunEnv) (db : List License) (u : Nat)
    (hm : markedOn License.subscriptionPlanExpirationEmailSentDate db u) :
    (planExpirationRun e db).sent.count u = 0
    ∧ markedOn License.subscriptionPlanExpirationEmailSentDate
        (planExpirationRun e db).db u :=
  handleCommand_marked License.subscriptionPlanExpirationEmailSentDate
    setPlanExpirationSent (fun _ _ => rfl) e.valid
    (fun ec => getRecentlyExpiredPlanLicenses ec e.days e.now) e.outcome e.apiOk
    e.uuidString e.dryRun e.now db u
    (fun ec db => recentlyExpired_sel_mem ec e.days e.now db)
    (fun ec db => recentlyExpired_sel_none ec e.days e.now db) hm

theorem planExpirationRun_sent_marked (e : RunEnv) (db : List License) (u : Nat)
    (h : u ∈ (planExpirationRun e db).sent) :
    markedOn License.subscriptionPlanExpirationEmailSentDate
      (planExpirationRun e db).db u :=
  handleCommand_sent_marked License.subscriptionPlanExpirationEmailSentDate
    setPlanExpirationSent (fun _ _ => rfl) e.valid
    (fun ec => getRecentlyExpiredPlanLicenses ec e.days e.now) e.outcome e.apiOk
    e.uuidString e.dryRun e.now db u
    (fun ec db => recentlyExpired_sel_mem ec e.days e.now db)
    (fun ec db => recentlyExpired_sel_none ec e.days e.now db) h

/-- **C2.** Across any sequence of runs of the license-expiration-reminder
command (resp. the subscription-plan-expiration command) over a table
with distinct license uuids, each license receives at most one reminder
(resp. expiration) email; and a license whose sent-date timestamp is
non-null is never sent an email in any run. -/
theorem c2_at_most_one_email_per_license (envs : List RunEnv)
    (db : List License) (u : Nat)
    (hnd : (db.map License.uuid).Nodup) :
    (runSequence remindersRun envs db).2.count u ≤ 1
    ∧ (runSequence planExpirationRun envs db).2.count u ≤ 1
    ∧ (∀ l ∈ db, l.uuid = u → l.expirationReminderSentDate.isSome = true →
        (runSequence remindersRun envs db).2.count u = 0)
    ∧ (∀ l ∈ db, l.uuid = u →
        l.subscriptionPlanExpirationEmailSentDate.isSome = true →
        (runSequence planExpirationRun envs db).2.count u = 0) := by
  refine ⟨?_, ?_, ?_, ?_⟩
  · exact runSequence_count License.expirationReminderSentDate remindersRun
      remindersRun_uuid_map remindersRun_count
      remindersRun_marked remindersRun_sent_marked envs db u hnd
  · exact runSequence_count License.subscriptionPlanExpirationEmailSentDate
      planExpirationRun planExpirationRun_uuid_map
      planExpirationRun_count planExpirationRun_marked
      planExpirationRun_sent_marked envs db u hnd
  · intro l hl hu hs
    exact runSequence_marked License.expirationReminderSentDate remindersRun
      remindersRun_marked envs db u
      (markedOn_of_mem License.expirationReminderSentDate hnd hl hu hs)
  · intro l hl hu hs
    exact runSequence_marked License.subscriptionPlanExpirationEmailSentDate
      planExpirationRun planExpirationRun_marked envs db u
      (markedOn_of_mem License.subscriptionPlanExpirationEmailSentDate hnd hl hu hs)

/-- A one-run environment for the idempotency witness. -/
def c2Env : RunEnv :=
  ⟨fun _ => true, ['e'], 30, false, retireNow, fun _ _ => SendOutcome.success,
    fun _ => true⟩

theorem c2_at_most_one_email_per_license_witness :
    (([c6Lic].map License.uuid).Nodup)
    ∧ (runSequence remindersRun [c2Env] [c6Lic]).2.count 1 ≤ 1 :=
  ⟨by decide,
    (c2_at_most_one_email_per_license [c2Env] [c6Lic] 1 (by decide)).1⟩

/-! ## Failure aggregation (C3) -/

theorem processCustomer_no_VE (sel : List License → List License)
    (setS : Int → License → License) (outcome : License → SendOutcome)
    (apiOk dryRun : Bool) (now : Int) (db : List License)
    (hVE : ∀ l, outcome l ≠ SendOutcome.valueError) :
    (processCustomer sel setS outcome apiOk dryRun now db).outcome
      ≠ CustOutcome.raisedValueError := by
  simp only [processCustomer]
  split
  · exact fun h => nomatch h
  · split
    · exact fun h => nomatch h
    · split
      · exact fun h => nomatch h
      · split
        · rename_i hab
          rw [processLicenses_not_aborted outcome now (sel db) db
            (fun x _ => hVE x)] at hab
          exact absurd hab (by simp)
        · exact fun h => nomatch h

theorem handleLoop_no_VE (selC : List Char → List License → List License)
    (setS : Int → License → License)
    (outcome : List Char → License → SendOutcome)
    (apiOk : List Char → Bool) (dryRun : Bool) (now : Int)
    (hVE : ∀ ec l, outcome ec l ≠ SendOutcome.valueError) :
    ∀ (uuids : List (List Char)) (db : List License),
      (handleLoop selC setS outcome apiOk dryRun now db uuids).abortedVE = false
      ∧ (handleLoop selC setS outcome apiOk dryRun now db uuids).processed = uuids
      ∧ (handleLoop selC setS outcome apiOk dryRun now db uuids).totalSucc
          = ((handleLoop selC setS outcome apiOk dryRun now db uuids).perCustomer.map
              Prod.fst).sum
      ∧ (handleLoop selC setS outcome apiOk dryRun now db uuids).totalFail
          = ((handleLoop selC setS outcome apiOk dryRun now db uuids).perCustomer.map
              Prod.snd).sum := by
  intro uuids
  induction uuids with
  | nil => intro db; exact ⟨rfl, rfl, rfl, rfl⟩
  | cons ec rest ih =>
    intro db
    simp only [handleLoop]
    cases hc : (processCustomer (selC ec) setS (outcome ec) (apiOk ec)
        dryRun now db).outcome with
    | raisedValueError =>
      exact absurd hc (processCustomer_no_VE _ _ _ _ _ _ _ (hVE ec))
    | raisedOther =>
      obtain ⟨h1, h2, h3, h4⟩ := ih _
      exact ⟨h1, by rw [h2], h3, h4⟩
    | ok =>
      obtain ⟨h1, h2, h3, h4⟩ := ih _
      refine ⟨h1, by rw [h2], ?_, ?_⟩
      · simp only [List.map_cons, List.sum_cons]
        rw [h3]
      · simp only [List.map_cons, List.sum_cons]
        rw [h4]

theorem handleCommand_aggregation (setS : Int → License → License)
    (valid : List Char → Bool)
    (selC : List Char → List License → List License)
    (outcome : List Char → License → SendOutcome)
    (apiOk : List Char → Bool) (s : List Char) (dryRun : Bool) (now : Int)
    (db : List License) (uuids : List (List Char))
    (hp : parseEnterpriseCustomerUuids valid s = Except.ok uuids)
    (hne : uuids ≠ [])
    (hVE : ∀ ec l, outcome ec l ≠ SendOutcome.valueError) :
    ∀ r : HandleOut, r = handleCommand valid selC setS outcome apiOk s dryRun now db →
      r.processed = uuids
      ∧ r.totalSucc = (r.perCustomer.map Prod.fst).sum
      ∧ r.totalFail = (r.perCustomer.map Prod.snd).sum
      ∧ (r.outcome = HandleOutcome.raisedFailureExc ↔ 0 < r.totalFail + r.entFail)
      ∧ (r.outcome = HandleOutcome.ok ↔ r.totalFail + r.entFail = 0) := by
  intro r hr
  subst hr
  unfold handleCommand
  rw [hp]
  cases uuids with
  | nil => exact absurd rfl hne
  | cons a rest =>
    obtain ⟨h1, h2, h3, h4⟩ :=
      handleLoop_no_VE selC setS outcome apiOk dryRun now hVE (a :: rest) db
    simp only [h1, Bool.false_eq_true, if_false]
    split
    · rename_i hpos
      exact ⟨h2, h3, h4, iff_of_true rfl hpos,
        iff_of_false (fun h => nomatch h) (Nat.pos_iff_ne_zero.mp hpos)⟩
    · rename_i hneg
      exact ⟨h2, h3, h4, iff_of_false (fun h => nomatch h) hneg,
        iff_of_true rfl (Nat.eq_zero_of_not_pos hneg)⟩

/-- **C3.** When an email command is run over several enterprise
customers and no `ValueError` occurs, a (non-`ValueError`) failure while
processing one customer does not prevent processing of the remaining
ones: every parsed customer is processed, the per-customer success and
failure counts are accumulated into the totals, and the command raises
the end-of-run exception iff the total failure count (per-license
failures plus customer-level failures) is positive, exiting normally
otherwise.  Stated for both the reminder and the plan-expiration
command. -/
theorem c3_partial_failure_aggregation
    (valid : List Char → Bool) (outcome : List Char → License → SendOutcome)
    (apiOk : List Char → Bool) (s : List Char) (daysR daysE : Int)
    (dryRun : Bool) (now : Int) (db db2 : List License)
    (uuids : List (List Char))
    (hp : parseEnterpriseCustomerUuids valid s = Except.ok uuids)
    (hne : uuids ≠ [])
    (hVE : ∀ ec l, outcome ec l ≠ SendOutcome.valueError) :
    (∀ r : HandleOut, r = remindersHandle valid outcome apiOk s daysR dryRun now db →
      r.processed = uuids
      ∧ r.totalSucc = (r.perCustomer.map Prod.fst).sum
      ∧ r.totalFail = (r.perCustomer.map Prod.snd).sum
      ∧ (r.outcome = HandleOutcome.raisedFailureExc ↔ 0 < r.totalFail + r.entFail)
      ∧ (r.outcome = HandleOutcome.ok ↔ r.totalFail + r.entFail = 0))
    ∧ (∀ r : HandleOut,
        r = planExpirationHandle valid outcome apiOk s daysE dryRun now db2 →
      r.processed = uuids
      ∧ r.totalSucc = (r.perCustomer.map Prod.fst).sum
      ∧ r.totalFail = (r.perCustomer.map Prod.snd).sum
      ∧ (r.outcome = HandleOutcome.raisedFailureExc ↔ 0 < r.totalFail + r.entFail)
      ∧ (r.outcome = HandleOutcome.ok ↔ r.totalFail + r.entFail = 0)) := by
  constructor
  · exact handleCommand_aggregation setReminderSent valid
      (fun ec => getExpiringLicenses ec daysR now) outcome apiOk s dryRun now db
      uuids hp hne hVE
  · exact handleCommand_aggregation setPlanExpirationSent valid
      (fun ec => getRecentlyExpiredPlanLicenses ec daysE now) outcome apiOk s
      dryRun now db2 uuids hp hne hVE

theorem c3_partial_failure_aggregation_witness :
    parseEnterpriseCustomerUuids (fun _ => true) ['e'] = Except.ok [['e']]
    ∧ (remindersHandle (fun _ => true) (fun _ _ => SendOutcome.brazeError)
        (fun _ => true) ['e'] 30 false 0 []).processed = [['e']] :=
  ⟨by rfl,
    ((c3_partial_failure_aggregation (fun _ => true)
      (fun _ _ => SendOutcome.brazeError) (fun _ => true) ['e'] 30 7 false 0
      [] [] [['e']] (by rfl) (by simp) (fun _ _ h => nomatch h)).1
      _ rfl).1⟩

/-! ## Failed sends leave the license untouched (C4) -/

theorem processCustomer_failed_send (setS : Int → License → License)
    (φ : License → Bool) (outcome : License → SendOutcome) (now : Int)
    (db : List License) (l : License)
    (hnd : (db.map License.uuid).Nodup)
    (hl : l ∈ db.filter φ)
    (hfail : outcome l = SendOutcome.brazeError ∨ outcome l = SendOutcome.otherError)
    (hVE : ∀ x ∈ db.filter φ, outcome x ≠ SendOutcome.valueError) :
    l ∈ (processCustomer (List.filter φ) setS outcome true false now db).db
    ∧ l ∈ ((processCustomer (List.filter φ) setS outcome true false now db).db).filter φ
    ∧ 1 ≤ (processCustomer (List.filter φ) setS outcome true false now db).fail := by
  have hpres : l ∈ (processLicenses setS outcome now db (db.filter φ)).db := by
    refine processLicenses_preserves outcome now (db.filter φ) db l
      (List.mem_of_mem_filter hl) ?_
    intro y hy hsucc hyu
    have : y = l :=
      List.inj_on_of_nodup_map hnd (List.mem_of_mem_filter hy)
        (List.mem_of_mem_filter hl) hyu
    subst this
    rcases hfail with h | h <;> (rw [hsucc] at h; cases h)
  have hfailcnt : 1 ≤ (processLicenses setS outcome now db (db.filter φ)).fail :=
    processLicenses_fail_pos outcome now (db.filter φ) db l hl hfail hVE
  have hnoab : (processLicenses setS outcome now db (db.filter φ)).aborted = false :=
    processLicenses_not_aborted outcome now (db.filter φ) db hVE
  simp only [processCustomer]
  split
  · rename_i hemp
    rw [List.isEmpty_iff] at hemp
    rw [hemp] at hl
    exact absurd hl (List.not_mem_nil l)
  · simp only [Bool.not_true, Bool.false_eq_true, if_false]
    rw [hnoab]
    simp only [Bool.false_eq_true, if_false]
    exact ⟨hpres, List.mem_filter.mpr ⟨hpres, List.of_mem_filter hl⟩, hfailcnt⟩

/-- **C4.** If sending the email for a selected license raises
`BrazeClientError` or any other non-`ValueError` exception, the command
does not update that license's sent-date field: the row is unchanged in
the resulting table, the failure is counted, and the license is still
selected by the same query afterwards (in particular its sent-date is
still null), so it remains eligible for a later run.  Stated for both
commands. -/
theorem c4_failed_send_preserves_eligibility :
    (∀ (ec : List Char) (days now : Int) (db : List License) (l : License)
        (outcome : License → SendOutcome),
      (db.map License.uuid).Nodup →
      l ∈ getExpiringLicenses ec days now db →
      (outcome l = SendOutcome.brazeError ∨ outcome l = SendOutcome.otherError) →
      (∀ x ∈ getExpiringLicenses ec days now db,
        outcome x ≠ SendOutcome.valueError) →
      l ∈ (processCustomer (getExpiringLicenses ec days now) setReminderSent
            outcome true false now db).db
      ∧ l ∈ getExpiringLicenses ec days now
          (processCustomer (getExpiringLicenses ec days now) setReminderSent
            outcome true false now db).db
      ∧ 1 ≤ (processCustomer (getExpiringLicenses ec days now) setReminderSent
            outcome true false now db).fail)
    ∧ (∀ (ec : List Char) (days now : Int) (db : List License) (l : License)
        (outcome : License → SendOutcome),
      (db.map License.uuid).Nodup →
      l ∈ getRecentlyExpiredPlanLicenses ec days now db →
      (outcome l = SendOutcome.brazeError ∨ outcome l = SendOutcome.otherError) →
      (∀ x ∈ getRecentlyExpiredPlanLicenses ec days now db,
        outcome x ≠ SendOutcome.valueError) →
      l ∈ (processCustomer (getRecentlyExpiredPlanLicenses ec days now)
            setPlanExpirationSent outcome true false now db).db
      ∧ l ∈ getRecentlyExpiredPlanLicenses ec days now
          (processCustomer (getRecentlyExpiredPlanLicenses ec days now)
            setPlanExpirationSent outcome true false now db).db
      ∧ 1 ≤ (processCustomer (getRecentlyExpiredPlanLicenses ec days now)
            setPlanExpirationSent outcome true false now db).fail) := by
  constructor
  · intro ec days now db l outcome hnd hl hfail hVE
    exact processCustomer_failed_send setReminderSent
      (expiringLicenseFilter ec days now) outcome now db l hnd hl hfail hVE
  · intro ec days now db l outcome hnd hl hfail hVE
    exact processCustomer_failed_send setPlanExpirationSent
      (recentlyExpiredPlanFilter ec days now) outcome now db l hnd hl hfail hVE

/-- An activated license expiring five microseconds past the epoch. -/
def c4Lic : License :=
  ⟨7, LicenseStatus.activated, some ['u'], none, none, none, none, none,
    ⟨⟨['e']⟩, 5, ['p']⟩⟩

theorem c4_failed_send_preserves_eligibility_witness :
    (([c4Lic].map License.uuid).Nodup)
    ∧ c4Lic ∈ getExpiringLicenses ['e'] 0 0 [c4Lic]
    ∧ 1 ≤ (processCustomer (getExpiringLicenses ['e'] 0 0) setReminderSent
        (fun _ => SendOutcome.brazeError) true false 0 [c4Lic]).fail :=
  ⟨by decide, by decide,
    ((c4_failed_send_preserves_eligibility.1 ['e'] 0 0 [c4Lic] c4Lic
      (fun _ => SendOutcome.brazeError) (by decide) (by decide)
      (Or.inl rfl) (fun _ _ h => nomatch h)).2.2)⟩

/-! ## Dry-run has no effects (C9) -/

theorem handleLoop_dryRun (selC : List Char → List License → List License)
    (setS : Int → License → License)
    (outcome : List Char → License → SendOutcome)
    (apiOk : List Char → Bool) (now : Int) :
    ∀ (uuids : List (List Char)) (db : List License),
      handleLoop selC setS outcome apiOk true now db uuids
        = ⟨db, 0, 0, 0, [], uuids, uuids.map (fun _ => (0, 0)), false, false⟩ := by
  intro uuids
  induction uuids with
  | nil => intro db; rfl
  | cons ec rest ih =>
    intro db
    simp only [handleLoop, processCustomer_dryRun, ih, List.map_cons]
    rfl

theorem handleCommand_dryRun_fields (setS : Int → License → License)
    (valid : List Char → Bool)
    (selC : List Char → List License → List License)
    (outcome : List Char → License → SendOutcome)
    (apiOk : List Char → Bool) (s : List Char) (now : Int) (db : List License) :
    (handleCommand valid selC setS outcome apiOk s true now db).db = db
    ∧ (handleCommand valid selC setS outcome apiOk s true now db).sent = []
    ∧ (handleCommand valid selC setS outcome apiOk s true now db).anyApiCalled = false
    ∧ (handleCommand valid selC setS outcome apiOk s true now db).perCustomer
        = (handleCommand valid selC setS outcome apiOk s true now db).processed.map
            (fun _ => ((0 : Nat), (0 : Nat)))
    ∧ ((handleCommand valid selC setS outcome apiOk s true now db).outcome
          = HandleOutcome.ok
        ∨ (handleCommand valid selC setS outcome apiOk s true now db).outcome
          = HandleOutcome.raisedValueError) := by
  unfold handleCommand
  cases hp : parseEnterpriseCustomerUuids valid s with
  | error e => exact ⟨rfl, rfl, rfl, rfl, Or.inr rfl⟩
  | ok uuids =>
    cases uuids with
    | nil => exact ⟨rfl, rfl, rfl, rfl, Or.inr rfl⟩
    | cons a rest =>
      simp only []
      rw [handleLoop_dryRun selC setS outcome apiOk now (a :: rest) db]
      exact ⟨rfl, rfl, rfl, rfl, Or.inl rfl⟩

/-- **C9.** With `--dry-run`, neither command sends any email, modifies
any license row, or calls the enterprise API; every processed customer
contributes `{'success_count': 0, 'failure_count': 0}`; and the
end-of-run failure exception is never raised (the command ends normally,
or with the pre-processing `ValueError` when the UUID argument is
unusable). -/
theorem c9_dry_run_no_effects (valid : List Char → Bool)
    (outcome : List Char → License → SendOutcome) (apiOk : List Char → Bool)
    (s : List Char) (daysR daysE : Int) (now : Int) (db db2 : List License) :
    ((remindersHandle valid outcome apiOk s daysR true now db).db = db
    ∧ (remindersHandle valid outcome apiOk s daysR true now db).sent = []
    ∧ (remindersHandle valid outcome apiOk s daysR true now db).anyApiCalled = false
    ∧ (remindersHandle valid outcome apiOk s daysR true now db).perCustomer
        = (remindersHandle valid outcome apiOk s daysR true now db).processed.map
            (fun _ => ((0 : Nat), (0 : Nat)))
    ∧ ((remindersHandle valid outcome apiOk s daysR true now db).outcome
          = HandleOutcome.ok
        ∨ (remindersHandle valid outcome apiOk s daysR true now db).outcome
          = HandleOutcome.raisedValueError))
    ∧ ((planExpirationHandle valid outcome apiOk s daysE true now db2).db = db2
    ∧ (planExpirationHandle valid outcome apiOk s daysE true now db2).sent = []
    ∧ (planExpirationHandle valid outcome apiOk s daysE true now db2).anyApiCalled
        = false
    ∧ (planExpirationHandle valid outcome apiOk s daysE true now db2).perCustomer
        = (planExpirationHandle valid outcome apiOk s daysE true now
            db2).processed.map (fun _ => ((0 : Nat), (0 : Nat)))
    ∧ ((planExpirationHandle valid outcome apiOk s daysE true now db2).outcome
          = HandleOutcome.ok
        ∨ (planExpirationHandle valid outcome apiOk s daysE true now db2).outcome
          = HandleOutcome.raisedValueError)) :=
  ⟨handleCommand_dryRun_fields setReminderSent valid
      (fun ec => getExpiringLicenses ec daysR now) outcome apiOk s now db,
    handleCommand_dryRun_fields setPlanExpirationSent valid
      (fun ec => getRecentlyExpiredPlanLicenses ec daysE now) outcome apiOk s
      now db2⟩

/-! ## UUID parsing (C10) -/

/-- **C10.** `_parse_enterprise_customer_uuids` returns, in order,
exactly the non-empty tokens obtained by splitting the input on maximal
runs of commas and whitespace, and raises `ValueError` iff at least one
such token fails the (stdlib `uuid.UUID`) syntactic-validity check; a
string consisting only of separators yields the empty token list, which
then makes `handle` raise `ValueError` before any customer is processed,
with no row touched and no email sent. -/
theorem c10_parse_enterprise_customer_uuids (valid : List Char → Bool)
    (s : List Char) (outcome : List Char → License → SendOutcome)
    (apiOk : List Char → Bool) (days : Int) (dryRun : Bool) (now : Int)
    (db : List License) :
    parseEnterpriseCustomerUuids valid s
      = (if (tokenize s).all valid then Except.ok (tokenize s)
          else Except.error ())
    ∧ (s.all isSep = true →
        parseEnterpriseCustomerUuids valid s = Except.ok []
        ∧ remindersHandle valid outcome apiOk s days dryRun now db
            = ⟨db, 0, 0, 0, [], [], [], false, HandleOutcome.raisedValueError⟩) := by
  have hpt : parseTokens s = tokenize s := parseTokens_eq_tokenize s
  constructor
  · unfold parseEnterpriseCustomerUuids
    rw [hpt]
  · intro hsep
    have htok : tokenize s = [] :=
      tokenize_all_sep fun c hc => List.all_eq_true.mp hsep c hc
    have hok : parseEnterpriseCustomerUuids valid s = Except.ok [] := by
      unfold parseEnterpriseCustomerUuids
      rw [hpt, htok]
      rfl
    refine ⟨hok, ?_⟩
    unfold remindersHandle handleCommand
    rw [hok]

theorem c10_parse_enterprise_customer_uuids_witness :
    ([',', ' '].all isSep = true)
    ∧ parseEnterpriseCustomerUuids (fun _ => true) [',', ' '] = Except.ok [] :=
  ⟨by decide,
    ((c10_parse_enterprise_customer_uuids (fun _ => true) [',', ' ']
      (fun _ _ => SendOutcome.success) (fun _ => true) 30 false 0 []).2
      (by decide)).1⟩

end LicenseManager
